import Mathlib

/-!
Verification development for the CorreX trigger-driven correction subsystem.

The definitions below are shallow embeddings of the Python sources:
  - `correX/autocorrect_service.py` (trigger normalization, trigger setters,
    the correction-trigger handler and the hook exception handler),
  - `correX/keystroke_buffer.py` (the per-window keystroke shadow buffer),
  - `correX/text_buffer.py` (the clipboard-based text writing path),
  - `correX/gemini_corrector.py` (candidate generation, response cleaning).

Strings are modelled as Lean `String`/`List Char`.  Python's Unicode-aware
character classes (`str.isalpha`, `str.isdigit`, `str.lower`, `str.strip`)
are modelled on the ASCII range, which the relevant alias tables and key
names live in.  Machine effects (Win32 calls, clipboard primitives, the
remote provider, thread scheduling) are modelled by explicit environment
records supplying each call's outcome.
-/

namespace CorreX

/-! ### Python string primitives on `List Char` -/

/-- ASCII fragment of Python `str.lower` on a single character
(`'A'`..`'Z'` are code points 65..90; lowering adds 32). -/
def pyLowerChar (c : Char) : Char :=
  if 65 ≤ c.toNat ∧ c.toNat ≤ 90 then Char.ofNat (c.toNat + 32) else c

/-- ASCII fragment of Python `str.lower`. -/
def pyLowerList (l : List Char) : List Char := l.map pyLowerChar

/-- ASCII fragment of the whitespace class used by Python `str.strip`
(space, tab, newline, carriage return, vertical tab, form feed). -/
def isPySpace (c : Char) : Bool :=
  c.toNat = 32 || c.toNat = 9 || c.toNat = 10 || c.toNat = 13 ||
  c.toNat = 11 || c.toNat = 12

/-- Python `str.strip()`: drop leading and trailing whitespace. -/
def stripChars (l : List Char) : List Char :=
  ((l.dropWhile isPySpace).reverse.dropWhile isPySpace).reverse

/-- Python `str.split(sep)` for a one-character separator: always returns at
least one (possibly empty) piece. -/
def splitOnChar (sep : Char) : List Char → List (List Char)
  | [] => [[]]
  | c :: rest =>
    match splitOnChar sep rest with
    | [] => [[]]
    | p :: ps => if c = sep then [] :: p :: ps else (c :: p) :: ps

/-- ASCII fragment of Python `str.isalpha` on one character. -/
def isAsciiAlpha (c : Char) : Bool :=
  (97 ≤ c.toNat && c.toNat ≤ 122) || (65 ≤ c.toNat && c.toNat ≤ 90)

/-- ASCII fragment of Python `str.isdigit` on one character. -/
def isAsciiDigit (c : Char) : Bool := 48 ≤ c.toNat && c.toNat ≤ 57

/-- Association-list lookup with decidable equality on `List Char` keys. -/
def alLookup (t : List Char) : List (List Char × List Char) → Option (List Char)
  | [] => none
  | (k, v) :: rest => if t = k then some v else alLookup t rest

/-- Python `l[-n:]` for `n ≥ 1`: the last `n` elements. -/
def takeLastN (n : Nat) (l : List α) : List α := l.drop (l.length - n)

/-! ### `AutoCorrectService.normalize_trigger_key` (autocorrect_service.py 196-325) -/

/-- The `modifier_aliases` table (autocorrect_service.py 214-232). -/
def modifierAliases : List (List Char × List Char) :=
  [("control".toList, "ctrl".toList), ("control_l".toList, "ctrl".toList),
   ("control_r".toList, "ctrl".toList), ("ctrl_l".toList, "ctrl".toList),
   ("ctrl_r".toList, "ctrl".toList), ("command".toList, "ctrl".toList),
   ("cmd".toList, "ctrl".toList), ("option".toList, "alt".toList),
   ("option_l".toList, "alt".toList), ("option_r".toList, "alt".toList),
   ("alt_l".toList, "alt".toList), ("alt_r".toList, "alt".toList),
   ("meta".toList, "alt".toList), ("meta_l".toList, "alt".toList),
   ("meta_r".toList, "alt".toList), ("shift_l".toList, "shift".toList),
   ("shift_r".toList, "shift".toList)]

/-- The `key_aliases` table (autocorrect_service.py 234-280). -/
def keyAliases : List (List Char × List Char) :=
  [("return".toList, "enter".toList), ("enter".toList, "enter".toList),
   ("escape".toList, "esc".toList), ("esc".toList, "esc".toList),
   ("space".toList, "space".toList), ("spacebar".toList, "space".toList),
   ("backspace".toList, "backspace".toList), ("delete".toList, "delete".toList),
   ("del".toList, "delete".toList), ("insert".toList, "insert".toList),
   ("ins".toList, "insert".toList), ("tab".toList, "tab".toList),
   ("caps_lock".toList, "caps lock".toList), ("capslock".toList, "caps lock".toList),
   ("page_up".toList, "page up".toList), ("pageup".toList, "page up".toList),
   ("prior".toList, "page up".toList), ("page_down".toList, "page down".toList),
   ("pagedown".toList, "page down".toList), ("next".toList, "page down".toList),
   ("home".toList, "home".toList), ("end".toList, "end".toList),
   ("up".toList, "up".toList), ("down".toList, "down".toList),
   ("left".toList, "left".toList), ("right".toList, "right".toList),
   ("minus".toList, "-".toList), ("equal".toList, "=".toList),
   ("comma".toList, ",".toList), ("period".toList, ".".toList),
   ("slash".toList, "/".toList), ("backslash".toList, "\\".toList),
   ("bracketleft".toList, "[".toList), ("bracketright".toList, "]".toList),
   ("semicolon".toList, ";".toList), ("apostrophe".toList, ['\'']),
   ("grave".toList, "`".toList), ("print".toList, "print screen".toList),
   ("print_screen".toList, "print screen".toList),
   ("scroll_lock".toList, "scroll lock".toList),
   ("scrolllock".toList, "scroll lock".toList), ("pause".toList, "pause".toList),
   ("break".toList, "pause".toList), ("num_lock".toList, "num lock".toList),
   ("numlock".toList, "num lock".toList)]

/-- `modifiers_in_order = ['ctrl', 'shift', 'alt']`. -/
def modifiersInOrder : List (List Char) :=
  ["ctrl".toList, "shift".toList, "alt".toList]

/-- The named entries of `allowed_base_keys` (digits, letters, named keys,
punctuation, `f1`..`f24`), autocorrect_service.py 282-290. -/
def allowedBaseKeys : List (List Char) :=
  (List.range 10).map (fun i => [Char.ofNat (48 + i)]) ++
  (List.range 26).map (fun i => [Char.ofNat (97 + i)]) ++
  ["enter".toList, "esc".toList, "space".toList, "backspace".toList,
   "delete".toList, "insert".toList, "tab".toList, "caps lock".toList,
   "page up".toList, "page down".toList, "home".toList, "end".toList,
   "up".toList, "down".toList, "left".toList, "right".toList,
   "print screen".toList, "scroll lock".toList, "pause".toList,
   "num lock".toList,
   "-".toList, "=".toList, ",".toList, ".".toList, "/".toList, "\\".toList,
   "[".toList, "]".toList, ";".toList, ['\''], "`".toList] ++
  (List.range 24).map (fun i => 'f' :: (Nat.toDigits 10 (i + 1)))

/-- `mapped_key.startswith('f') and mapped_key[1:].isdigit()` (Python
`str.isdigit` is false on the empty string). -/
def isFkeyToken (l : List Char) : Bool :=
  match l with
  | c :: ds => decide (c = 'f') && decide (ds ≠ []) && ds.all isAsciiDigit
  | [] => false

/-- Result of processing one `+`-separated token of a trigger string. -/
inductive TriggerTok where
  | mod (m : List Char)
  | base (b : List Char)
  | bad
deriving DecidableEq

/-- The single-letter lower-casing step applied to the key-alias-mapped
token (autocorrect_service.py 304-306):
`if len(mapped_key) == 1 and mapped_key.isalpha(): mapped_key = mapped_key.lower()`. -/
def applyCaseFold (m0 : List Char) : List Char :=
  match m0 with
  | [c] => if isAsciiAlpha c then [pyLowerChar c] else m0
  | _ => m0

lemma applyCaseFold_nil : applyCaseFold [] = [] := rfl

lemma applyCaseFold_single (c : Char) :
    applyCaseFold [c] = if isAsciiAlpha c then [pyLowerChar c] else [c] := rfl

lemma applyCaseFold_big (c c2 : Char) (t : List Char) :
    applyCaseFold (c :: c2 :: t) = c :: c2 :: t := rfl

/-- Final fallback of the token loop (autocorrect_service.py 314-319):
`if mapped_key.isalpha() and len(mapped_key) == 1: base_key = mapped_key
 else: return None`. -/
def singletonAlphaTok (mk : List Char) : TriggerTok :=
  match mk with
  | [c] => if isAsciiAlpha c then .base [c] else .bad
  | _ => .bad

lemma singletonAlphaTok_nil : singletonAlphaTok [] = .bad := rfl

lemma singletonAlphaTok_single (c : Char) :
    singletonAlphaTok [c] = if isAsciiAlpha c then .base [c] else .bad := rfl

lemma singletonAlphaTok_big (c c2 : Char) (t : List Char) :
    singletonAlphaTok (c :: c2 :: t) = .bad := rfl

/-- Base-key acceptance for a fully alias-mapped token
(autocorrect_service.py 310-319); the source's
`if mapped_key.isdigit(): mapped_key = mapped_key` is a no-op and is omitted. -/
def classifyMapped (mk : List Char) : TriggerTok :=
  if isFkeyToken mk then .base mk
  else if mk ∈ allowedBaseKeys then .base mk
  else singletonAlphaTok mk

/-- After modifier-alias mapping: either a recognized modifier, or a base-key
candidate (autocorrect_service.py 297-319). -/
def classifyAfterModAlias (np : List Char) : TriggerTok :=
  if np ∈ modifiersInOrder then .mod np
  else classifyMapped (applyCaseFold ((alLookup np keyAliases).getD np))

/-- One iteration of the token loop in `normalize_trigger_key`
(autocorrect_service.py 296-319): alias-map the token, classify it as a
modifier, an accepted base key, or an unrecognized token. -/
def classifyToken (p : List Char) : TriggerTok :=
  classifyAfterModAlias ((alLookup p modifierAliases).getD p)

/-- The token loop of `normalize_trigger_key`: accumulates distinct modifiers
in first-seen order; each recognized base key overwrites the previous one;
any unrecognized token aborts with `none`. -/
def processParts :
    List (List Char) → List (List Char) → Option (List Char) →
    Option (List (List Char) × Option (List Char))
  | [], mods, base => some (mods, base)
  | p :: rest, mods, base =>
    match classifyToken p with
    | .mod m => processParts rest (if m ∈ mods then mods else mods ++ [m]) base
    | .base b => processParts rest mods (some b)
    | .bad => none

/-- Python `'+'.join(pieces)`. -/
def joinPlus : List (List Char) → List Char
  | [] => []
  | [t] => t
  | t :: rest => t ++ '+' :: joinPlus rest

/-- Assemble the canonical combo from the processed tokens
(autocorrect_service.py 321-325): fail when no base key was seen, then join
the modifiers in the fixed order `ctrl, shift, alt` followed by the base key. -/
def normalizeTokens (parts : List (List Char)) : Option String :=
  match processParts parts [] none with
  | none => none
  | some (_, none) => none
  | some (mods, some b) =>
    some ⟨joinPlus ((modifiersInOrder.filter (· ∈ mods)) ++ [b])⟩

/-- Tokenization step of `normalize_trigger_key`: strip + lower-case the raw
string, split on `+`, strip each piece and drop empty pieces. -/
def tokenizeTrigger (raw : String) : List (List Char) :=
  ((splitOnChar '+' (pyLowerList (stripChars raw.toList))).map stripChars).filter
    (fun p => p ≠ [])

/-- `AutoCorrectService.normalize_trigger_key` (autocorrect_service.py
196-325) for a non-`None` argument. -/
def normalize_trigger_key (raw : String) : Option String :=
  if pyLowerList (stripChars raw.toList) = [] then none
  else if tokenizeTrigger raw = [] then none
  else normalizeTokens (tokenizeTrigger raw)

/-! ### Character-level lemmas -/

lemma char_eq_of_toNat_eq {a b : Char} (h : a.toNat = b.toNat) : a = b :=
  Char.ext (UInt32.ext h)

lemma char_toNat_ofNat_valid {n : Nat} (h : n < 55296) :
    (Char.ofNat n).toNat = n := by
  unfold Char.ofNat
  split
  · rfl
  · rename_i hh
    exact absurd (Or.inl (by omega)) hh

lemma isPySpace_false_of_ge {c : Char} (h : 33 ≤ c.toNat) : isPySpace c = false := by
  rw [Bool.eq_false_iff]
  intro htrue
  simp only [isPySpace, Bool.or_eq_true, decide_eq_true_eq] at htrue
  omega

lemma isAsciiDigit_toNat {c : Char} (h : isAsciiDigit c = true) :
    48 ≤ c.toNat ∧ c.toNat ≤ 57 := by
  simpa only [isAsciiDigit, Bool.and_eq_true, decide_eq_true_eq] using h

lemma isAsciiAlpha_toNat {c : Char} (h : isAsciiAlpha c = true) :
    (97 ≤ c.toNat ∧ c.toNat ≤ 122) ∨ (65 ≤ c.toNat ∧ c.toNat ≤ 90) := by
  simpa only [isAsciiAlpha, Bool.or_eq_true, Bool.and_eq_true,
    decide_eq_true_eq] using h

lemma char_ne_of_toNat_lb {c d : Char} (hc : 48 ≤ c.toNat) (hd : d.toNat < 48) :
    c ≠ d := by
  intro h
  subst h
  omega

lemma pyLowerChar_toNat_of_upper {c : Char} (h : 65 ≤ c.toNat ∧ c.toNat ≤ 90) :
    (pyLowerChar c).toNat = c.toNat + 32 := by
  rw [pyLowerChar, if_pos h]
  exact char_toNat_ofNat_valid (by omega)

lemma pyLowerChar_fixed {c : Char} (h : ¬(65 ≤ c.toNat ∧ c.toNat ≤ 90)) :
    pyLowerChar c = c := by
  rw [pyLowerChar, if_neg h]

lemma pyLowerChar_idem (c : Char) : pyLowerChar (pyLowerChar c) = pyLowerChar c := by
  by_cases h : 65 ≤ c.toNat ∧ c.toNat ≤ 90
  · have hn := pyLowerChar_toNat_of_upper h
    exact pyLowerChar_fixed (by omega)
  · rw [pyLowerChar_fixed h, pyLowerChar_fixed h]

lemma isAsciiAlpha_pyLowerChar {c : Char} (h : isAsciiAlpha c = true) :
    isAsciiAlpha (pyLowerChar c) = true := by
  rcases isAsciiAlpha_toNat h with h1 | h1
  · rw [pyLowerChar_fixed (by omega)]
    exact h
  · have hn := pyLowerChar_toNat_of_upper h1
    simp only [isAsciiAlpha, Bool.or_eq_true, Bool.and_eq_true, decide_eq_true_eq]
    omega

/-! ### `stripChars`, `splitOnChar`, `joinPlus` lemmas -/

lemma dropWhile_eq_self_of_head {p : Char → Bool} {l : List Char}
    (h : ∀ c, l.head? = some c → p c = false) : l.dropWhile p = l := by
  cases l with
  | nil => rfl
  | cons a t => simp [List.dropWhile, h a rfl]

lemma stripChars_eq_self {l : List Char}
    (h1 : ∀ c, l.head? = some c → isPySpace c = false)
    (h2 : ∀ c, l.getLast? = some c → isPySpace c = false) :
    stripChars l = l := by
  unfold stripChars
  rw [dropWhile_eq_self_of_head h1]
  rw [dropWhile_eq_self_of_head (by
    intro c hc
    apply h2
    rwa [List.head?_reverse] at hc)]
  exact List.reverse_reverse l

lemma stripChars_eq_self_of_all {l : List Char}
    (h : ∀ c ∈ l, isPySpace c = false) : stripChars l = l := by
  apply stripChars_eq_self
  · intro c hc
    exact h c (by
      have := List.mem_of_mem_head? hc
      exact this)
  · intro c hc
    exact h c (List.mem_of_mem_getLast? hc)

lemma splitOnChar_ne_nil (sep : Char) (l : List Char) : splitOnChar sep l ≠ [] := by
  induction l with
  | nil => simp [splitOnChar]
  | cons c rest ih =>
    simp only [splitOnChar]
    rcases hs : splitOnChar sep rest with _ | ⟨p, ps⟩
    · exact absurd hs ih
    · by_cases hc : c = sep <;> simp [hc]

lemma splitOnChar_no_sep {sep : Char} {t : List Char} (h : sep ∉ t) :
    splitOnChar sep t = [t] := by
  induction t with
  | nil => rfl
  | cons c rest ih =>
    have hc : c ≠ sep := by
      intro hh
      exact h (hh ▸ List.mem_cons_self c rest)
    have hrest : sep ∉ rest := fun hm => h (List.mem_cons_of_mem c hm)
    simp only [splitOnChar, ih hrest]
    rw [if_neg hc]

lemma splitOnChar_append_sep {sep : Char} {t r : List Char} (h : sep ∉ t) :
    splitOnChar sep (t ++ sep :: r) = t :: splitOnChar sep r := by
  induction t with
  | nil =>
    simp only [List.nil_append, splitOnChar]
    rcases hs : splitOnChar sep r with _ | ⟨p, ps⟩
    · exact absurd hs (splitOnChar_ne_nil sep r)
    · simp
  | cons c t' ih =>
    have hc : c ≠ sep := by
      intro hh
      exact h (hh ▸ List.mem_cons_self c t')
    have ht' : sep ∉ t' := fun hm => h (List.mem_cons_of_mem c hm)
    simp only [List.cons_append, splitOnChar, List.append_eq]
    rw [ih ht']
    simp [hc]

lemma joinPlus_cons (t : List Char) (rest : List (List Char)) :
    joinPlus (t :: rest) = if rest = [] then t else t ++ '+' :: joinPlus rest := by
  cases rest with
  | nil => rfl
  | cons r rs => rfl

lemma splitOnChar_joinPlus {ts : List (List Char)} (hne : ts ≠ [])
    (h : ∀ t ∈ ts, '+' ∉ t) : splitOnChar '+' (joinPlus ts) = ts := by
  induction ts with
  | nil => exact absurd rfl hne
  | cons t rest ih =>
    rw [joinPlus_cons]
    cases rest with
    | nil =>
      rw [if_pos rfl]
      exact splitOnChar_no_sep (h t (List.mem_cons_self t []))
    | cons r rs =>
      rw [if_neg (by simp)]
      rw [splitOnChar_append_sep (h t (List.mem_cons_self t _))]
      rw [ih (by simp) (fun x hx => h x (List.mem_cons_of_mem t hx))]

/-! ### Recognized base-key tokens -/

/-- The base-key tokens the loop in `normalize_trigger_key` can accept: an
`f`+digits key, a member of the `allowed_base_keys` table, or a single
lower-case-fixed alphabetic character. -/
def GoodBase (b : List Char) : Prop :=
  (∃ ds, b = 'f' :: ds ∧ ds ≠ [] ∧ ds.all isAsciiDigit = true) ∨
  b ∈ allowedBaseKeys ∨
  (∃ c, b = [c] ∧ isAsciiAlpha c = true ∧ pyLowerChar c = c)

lemma alLookup_eq_none {t : List Char} {al : List (List Char × List Char)}
    (h : ∀ kv ∈ al, kv.1 ≠ t) : alLookup t al = none := by
  induction al with
  | nil => rfl
  | cons kv rest ih =>
    simp only [alLookup]
    rw [if_neg (fun he => (h kv (List.mem_cons_self kv rest)) he.symm)]
    exact ih fun kv' h' => h kv' (List.mem_cons_of_mem kv h')

lemma modifierAliases_head : ∀ kv ∈ modifierAliases, kv.1.head? ≠ some 'f' := by
  decide

lemma keyAliases_head : ∀ kv ∈ keyAliases, kv.1.head? ≠ some 'f' := by decide

lemma modifierAliases_len : ∀ kv ∈ modifierAliases, 2 ≤ kv.1.length := by decide

lemma keyAliases_len : ∀ kv ∈ keyAliases, 2 ≤ kv.1.length := by decide

lemma modAlias_fkey (ds : List Char) :
    alLookup ('f' :: ds) modifierAliases = none :=
  alLookup_eq_none fun kv hkv he =>
    modifierAliases_head kv hkv (by rw [he]; rfl)

lemma keyAlias_fkey (ds : List Char) : alLookup ('f' :: ds) keyAliases = none :=
  alLookup_eq_none fun kv hkv he => keyAliases_head kv hkv (by rw [he]; rfl)

lemma modAlias_singleton (c : Char) : alLookup [c] modifierAliases = none :=
  alLookup_eq_none fun kv hkv he => by
    have := modifierAliases_len kv hkv
    rw [he] at this
    simp at this

lemma keyAlias_singleton (c : Char) : alLookup [c] keyAliases = none :=
  alLookup_eq_none fun kv hkv he => by
    have := keyAliases_len kv hkv
    rw [he] at this
    simp at this

lemma fkey_not_mem_mods (ds : List Char) : ('f' :: ds) ∉ modifiersInOrder := by
  intro hm
  have : ∀ m ∈ modifiersInOrder, m.head? ≠ some 'f' := by decide
  exact this _ hm rfl

lemma singleton_not_mem_mods (c : Char) : [c] ∉ modifiersInOrder := by
  intro hm
  have : ∀ m ∈ modifiersInOrder, 2 ≤ m.length := by decide
  have h2 := this _ hm
  simp at h2

lemma classifyToken_fkey {ds : List Char} (h1 : ds ≠ [])
    (h2 : ds.all isAsciiDigit = true) :
    classifyToken ('f' :: ds) = .base ('f' :: ds) := by
  cases ds with
  | nil => exact absurd rfl h1
  | cons d t =>
    rw [classifyToken, modAlias_fkey, Option.getD_none, classifyAfterModAlias,
      if_neg (fkey_not_mem_mods (d :: t)), keyAlias_fkey, Option.getD_none,
      applyCaseFold_big, classifyMapped]
    have hfk : isFkeyToken ('f' :: d :: t) = true := by
      simp only [isFkeyToken, h2]
      simp
    rw [hfk]
    simp

lemma classifyToken_allowed : ∀ b ∈ allowedBaseKeys, classifyToken b = .base b := by
  decide

lemma classifyToken_singleton {c : Char} (ha : isAsciiAlpha c = true)
    (hl : pyLowerChar c = c) : classifyToken [c] = .base [c] := by
  rw [classifyToken, modAlias_singleton, Option.getD_none, classifyAfterModAlias,
    if_neg (singleton_not_mem_mods c), keyAlias_singleton, Option.getD_none]
  have hca : applyCaseFold [c] = [c] := by
    rw [applyCaseFold_single, ha, if_pos rfl, hl]
  rw [hca, classifyMapped]
  have hfk : isFkeyToken [c] = false := by simp [isFkeyToken]
  rw [hfk]
  by_cases hmem : [c] ∈ allowedBaseKeys
  · simp [hmem]
  · simp [hmem, singletonAlphaTok_single, ha]

lemma goodBase_classify {b : List Char} (h : GoodBase b) :
    classifyToken b = .base b := by
  rcases h with ⟨ds, rfl, h1, h2⟩ | h | ⟨c, rfl, ha, hl⟩
  · exact classifyToken_fkey h1 h2
  · exact classifyToken_allowed b h
  · exact classifyToken_singleton ha hl

lemma goodBase_ne_nil {b : List Char} (h : GoodBase b) : b ≠ [] := by
  rcases h with ⟨ds, rfl, _, _⟩ | h | ⟨c, rfl, _, _⟩
  · simp
  · exact (by decide : ∀ b ∈ allowedBaseKeys, b ≠ []) b h
  · simp

lemma goodBase_no_plus {b : List Char} (h : GoodBase b) : '+' ∉ b := by
  rcases h with ⟨ds, rfl, _, h2⟩ | h | ⟨c, rfl, ha, _⟩
  · intro hm
    rcases List.mem_cons.1 hm with he | hd
    · exact absurd he (by decide)
    · have := List.all_eq_true.1 h2 _ hd
      exact absurd this (by decide)
  · exact (by decide : ∀ b ∈ allowedBaseKeys, '+' ∉ b) b h
  · intro hm
    rcases List.mem_cons.1 hm with he | hd
    · rw [← he] at ha
      exact absurd ha (by decide)
    · simp at hd

lemma pyLowerList_eq_self_of {l : List Char} (h : ∀ c ∈ l, pyLowerChar c = c) :
    pyLowerList l = l := by
  unfold pyLowerList
  rw [List.map_congr_left h]
  simp

lemma goodBase_lower {b : List Char} (h : GoodBase b) : pyLowerList b = b := by
  rcases h with ⟨ds, rfl, _, h2⟩ | h | ⟨c, rfl, _, hl⟩
  · apply pyLowerList_eq_self_of
    intro c hc
    rcases List.mem_cons.1 hc with he | hd
    · rw [he]; decide
    · have hdig := isAsciiDigit_toNat (List.all_eq_true.1 h2 _ hd)
      exact pyLowerChar_fixed (by omega)
  · exact (by decide : ∀ b ∈ allowedBaseKeys, pyLowerList b = b) b h
  · apply pyLowerList_eq_self_of
    intro x hx
    rcases List.mem_cons.1 hx with he | hd
    · rw [he]; exact hl
    · simp at hd

/-- Decidable flag: the first character, if any, is not Python whitespace. -/
def headNonSpace (l : List Char) : Bool :=
  match l.head? with
  | none => true
  | some c => !isPySpace c

/-- Decidable flag: the last character, if any, is not Python whitespace. -/
def lastNonSpace (l : List Char) : Bool :=
  match l.getLast? with
  | none => true
  | some c => !isPySpace c

lemma stripChars_eq_self_of_flags {l : List Char} (h1 : headNonSpace l = true)
    (h2 : lastNonSpace l = true) : stripChars l = l := by
  apply stripChars_eq_self
  · intro c hc
    unfold headNonSpace at h1
    rw [hc] at h1
    simpa using h1
  · intro c hc
    unfold lastNonSpace at h2
    rw [hc] at h2
    simpa using h2

lemma goodBase_strip {b : List Char} (h : GoodBase b) : stripChars b = b := by
  rcases h with ⟨ds, rfl, _, h2⟩ | h | ⟨c, rfl, ha, _⟩
  · apply stripChars_eq_self_of_all
    intro c hc
    rcases List.mem_cons.1 hc with he | hd
    · rw [he]; decide
    · have hdig := isAsciiDigit_toNat (List.all_eq_true.1 h2 _ hd)
      exact isPySpace_false_of_ge (by omega)
  · exact (by decide : ∀ b ∈ allowedBaseKeys,
      headNonSpace b = true ∧ lastNonSpace b = true) b h |>.elim
      fun h1 h2 => stripChars_eq_self_of_flags h1 h2
  · apply stripChars_eq_self_of_all
    intro x hx
    rcases List.mem_cons.1 hx with he | hd
    · subst he
      rcases isAsciiAlpha_toNat ha with hr | hr <;>
        exact isPySpace_false_of_ge (by omega)
    · simp at hd

lemma goodBase_head {b : List Char} (h : GoodBase b) : headNonSpace b = true := by
  have hs := goodBase_strip h
  cases hb : b with
  | nil => rfl
  | cons c t =>
    unfold headNonSpace
    simp only [hb, List.head?_cons]
    rw [Bool.not_eq_true']
    by_contra hsp
    rw [Bool.not_eq_false] at hsp
    rw [hb] at hs
    unfold stripChars at hs
    rw [List.dropWhile_cons, if_pos hsp] at hs
    have hlen := congrArg List.length hs
    have hd1 : (t.dropWhile isPySpace).length ≤ t.length :=
      (List.dropWhile_sublist _).length_le
    have hd2 : ((t.dropWhile isPySpace).reverse.dropWhile isPySpace).length ≤
        (t.dropWhile isPySpace).reverse.length :=
      (List.dropWhile_sublist _).length_le
    simp only [List.length_reverse, List.length_cons] at hlen hd2
    omega

lemma headNonSpace_of_all {l : List Char} (h : ∀ c ∈ l, isPySpace c = false) :
    headNonSpace l = true := by
  unfold headNonSpace
  cases hl : l.head? with
  | none => rfl
  | some c => simp [h c (List.mem_of_mem_head? hl)]

lemma lastNonSpace_of_all {l : List Char} (h : ∀ c ∈ l, isPySpace c = false) :
    lastNonSpace l = true := by
  unfold lastNonSpace
  cases hl : l.getLast? with
  | none => rfl
  | some c => simp [h c (List.mem_of_mem_getLast? hl)]

lemma goodBase_all_flags {b : List Char} (h : GoodBase b) :
    headNonSpace b = true ∧ lastNonSpace b = true := by
  rcases h with ⟨ds, rfl, _, h2⟩ | h | ⟨c, rfl, ha, _⟩
  · have hall : ∀ c ∈ 'f' :: ds, isPySpace c = false := by
      intro c hc
      rcases List.mem_cons.1 hc with he | hd
      · rw [he]; decide
      · have hdig := isAsciiDigit_toNat (List.all_eq_true.1 h2 _ hd)
        exact isPySpace_false_of_ge (by omega)
    exact ⟨headNonSpace_of_all hall, lastNonSpace_of_all hall⟩
  · exact (by decide : ∀ b ∈ allowedBaseKeys,
      headNonSpace b = true ∧ lastNonSpace b = true) b h
  · have hall : ∀ x ∈ [c], isPySpace x = false := by
      intro x hx
      rcases List.mem_cons.1 hx with he | hd
      · subst he
        rcases isAsciiAlpha_toNat ha with hr | hr <;>
          exact isPySpace_false_of_ge (by omega)
      · simp at hd
    exact ⟨headNonSpace_of_all hall, lastNonSpace_of_all hall⟩

/-! ### Loop lemmas for `processParts` -/

/-- Bool test: the token is classified as a modifier. -/
def isModifierToken (p : List Char) : Bool :=
  match classifyToken p with
  | .mod _ => true
  | _ => false

lemma classify_pipeline_good {m0 b : List Char}
    (h : classifyMapped (applyCaseFold m0) = .base b) : GoodBase b := by
  rcases m0 with _ | ⟨c, _ | ⟨c2, t⟩⟩
  · -- m0 = []: every branch rejects
    have hbad : classifyMapped (applyCaseFold []) = .bad := by decide
    rw [hbad] at h
    cases h
  · -- m0 = [c]
    by_cases ha : isAsciiAlpha c = true
    · have hca : applyCaseFold [c] = [pyLowerChar c] := by
        rw [applyCaseFold_single, ha, if_pos rfl]
      rw [hca, classifyMapped] at h
      have hfk : isFkeyToken [pyLowerChar c] = false := by simp [isFkeyToken]
      rw [hfk] at h
      simp only [Bool.false_eq_true, if_false] at h
      by_cases hmem : [pyLowerChar c] ∈ allowedBaseKeys
      · rw [if_pos hmem] at h
        cases h
        exact Or.inr (Or.inl hmem)
      · rw [if_neg hmem, singletonAlphaTok_single,
          isAsciiAlpha_pyLowerChar ha, if_pos rfl] at h
        cases h
        exact Or.inr (Or.inr ⟨pyLowerChar c, rfl,
          isAsciiAlpha_pyLowerChar ha, pyLowerChar_idem c⟩)
    · rw [Bool.not_eq_true] at ha
      have hca : applyCaseFold [c] = [c] := by
        rw [applyCaseFold_single, ha]
        simp
      rw [hca, classifyMapped] at h
      have hfk : isFkeyToken [c] = false := by simp [isFkeyToken]
      rw [hfk] at h
      simp only [Bool.false_eq_true, if_false] at h
      by_cases hmem : [c] ∈ allowedBaseKeys
      · rw [if_pos hmem] at h
        cases h
        exact Or.inr (Or.inl hmem)
      · rw [if_neg hmem, singletonAlphaTok_single, ha] at h
        simp only [Bool.false_eq_true, if_false] at h
        cases h
  · -- m0 has at least two characters
    rw [applyCaseFold_big, classifyMapped] at h
    by_cases hf : isFkeyToken (c :: c2 :: t) = true
    · rw [hf] at h
      simp only [if_pos] at h
      cases h
      simp only [isFkeyToken, Bool.and_eq_true, decide_eq_true_eq] at hf
      exact Or.inl ⟨c2 :: t, by rw [hf.1.1], by simp, hf.2⟩
    · rw [Bool.not_eq_true] at hf
      rw [hf] at h
      simp only [Bool.false_eq_true, if_false] at h
      by_cases hmem : (c :: c2 :: t) ∈ allowedBaseKeys
      · rw [if_pos hmem] at h
        cases h
        exact Or.inr (Or.inl hmem)
      · rw [if_neg hmem, singletonAlphaTok_big] at h
        cases h

lemma classifyToken_base_good {p b : List Char}
    (h : classifyToken p = .base b) : GoodBase b := by
  rw [classifyToken, classifyAfterModAlias] at h
  by_cases h1 : (alLookup p modifierAliases).getD p ∈ modifiersInOrder
  · rw [if_pos h1] at h
    cases h
  · rw [if_neg h1] at h
    exact classify_pipeline_good h

lemma processParts_base_good :
    ∀ (ps : List (List Char)) mods b0 mods' b,
      processParts ps mods b0 = some (mods', some b) →
      b0 = some b ∨ GoodBase b := by
  intro ps
  induction ps with
  | nil =>
    intro mods b0 mods' b h
    simp only [processParts, Option.some.injEq, Prod.mk.injEq] at h
    exact Or.inl h.2
  | cons p rest ih =>
    intro mods b0 mods' b h
    simp only [processParts] at h
    cases hcl : classifyToken p with
    | mod m =>
      rw [hcl] at h
      exact ih _ _ _ _ h
    | base b' =>
      rw [hcl] at h
      rcases ih _ _ _ _ h with he | hg
      · cases he
        exact Or.inr (classifyToken_base_good hcl)
      · exact Or.inr hg
    | bad =>
      rw [hcl] at h
      cases h

lemma processParts_all_mods :
    ∀ (ps : List (List Char)) mods,
      (∀ p ∈ ps, isModifierToken p = true) →
      ∃ mods', processParts ps mods none = some (mods', none) := by
  intro ps
  induction ps with
  | nil => intro mods _; exact ⟨mods, rfl⟩
  | cons p rest ih =>
    intro mods hall
    simp only [processParts]
    cases hcl : classifyToken p with
    | mod m =>
      exact ih _ fun x hx => hall x (List.mem_cons_of_mem p hx)
    | base b' =>
      have := hall p (List.mem_cons_self p rest)
      rw [isModifierToken, hcl] at this
      cases this
    | bad =>
      have := hall p (List.mem_cons_self p rest)
      rw [isModifierToken, hcl] at this
      cases this

lemma processParts_has_bad :
    ∀ (ps : List (List Char)) mods b0,
      (∃ p ∈ ps, classifyToken p = .bad) → processParts ps mods b0 = none := by
  intro ps
  induction ps with
  | nil =>
    intro mods b0 h
    simp at h
  | cons p rest ih =>
    intro mods b0 h
    simp only [processParts]
    rcases h with ⟨q, hq, hbad⟩
    rcases List.mem_cons.1 hq with rfl | hq'
    · rw [hbad]
    · cases hcl : classifyToken p with
      | mod m => exact ih _ _ ⟨q, hq', hbad⟩
      | base b' => exact ih _ _ ⟨q, hq', hbad⟩
      | bad => rfl

lemma normalize_trigger_key_shape {raw : String} {c : String}
    (h : normalize_trigger_key raw = some c) :
    ∃ mods b, GoodBase b ∧
      processParts (tokenizeTrigger raw) [] none = some (mods, some b) ∧
      c.toList = joinPlus ((modifiersInOrder.filter (· ∈ mods)) ++ [b]) := by
  unfold normalize_trigger_key at h
  split at h
  · cases h
  · split at h
    · cases h
    · unfold normalizeTokens at h
      rcases hp : processParts (tokenizeTrigger raw) [] none with _ | ⟨mods, b0⟩
      · rw [hp] at h
        cases h
      · rw [hp] at h
        cases b0 with
        | none => cases h
        | some b =>
          refine ⟨mods, b, ?_, rfl, ?_⟩
          · rcases processParts_base_good _ _ _ _ _ hp with he | hg
            · cases he
            · exact hg
          · cases h
            rfl

/-! ### Renormalizing a canonical combo -/

lemma modifiersInOrder_classify :
    ∀ m ∈ modifiersInOrder, classifyToken m = .mod m := by decide

lemma modifiersInOrder_strip : ∀ m ∈ modifiersInOrder, stripChars m = m := by
  decide

lemma modifiersInOrder_lower : ∀ m ∈ modifiersInOrder, pyLowerList m = m := by
  decide

lemma modifiersInOrder_no_plus : ∀ m ∈ modifiersInOrder, '+' ∉ m := by decide

lemma modifiersInOrder_ne_nil : ∀ m ∈ modifiersInOrder, m ≠ [] := by decide

lemma modifiersInOrder_headflag :
    ∀ m ∈ modifiersInOrder, headNonSpace m = true := by decide

lemma modifiersInOrder_nodup : modifiersInOrder.Nodup := by decide

lemma processParts_mods_append :
    ∀ (ms acc rest : List (List Char)) (b0 : Option (List Char)),
      ms.Nodup → (∀ m ∈ ms, classifyToken m = .mod m) →
      (∀ m ∈ ms, m ∉ acc) →
      processParts (ms ++ rest) acc b0 = processParts rest (acc ++ ms) b0 := by
  intro ms
  induction ms with
  | nil =>
    intro acc rest b0 _ _ _
    simp
  | cons m ms' ih =>
    intro acc rest b0 hnd hcl hnin
    simp only [List.cons_append, processParts,
      hcl m (List.mem_cons_self m ms')]
    rw [if_neg (hnin m (List.mem_cons_self m ms'))]
    simp only [List.append_eq]
    rw [ih (acc ++ [m]) rest b0 (List.Nodup.of_cons hnd)
      (fun x hx => hcl x (List.mem_cons_of_mem m hx))
      (fun x hx hmem => by
        rcases List.mem_append.1 hmem with h1 | h2
        · exact hnin x (List.mem_cons_of_mem m hx) h1
        · have hxm : x = m := by simpa using h2
          subst hxm
          exact (List.nodup_cons.1 hnd).1 hx)]
    rw [List.append_assoc]
    rfl

lemma joinPlus_append_ne_nil {ms : List (List Char)} {b : List Char}
    (hb : b ≠ []) : joinPlus (ms ++ [b]) ≠ [] := by
  cases ms with
  | nil => simpa [joinPlus] using hb
  | cons m ms' =>
    rw [List.cons_append, joinPlus_cons, if_neg (by simp)]
    simp

lemma joinPlus_getLast_append {ms : List (List Char)} {b : List Char}
    (hb : b ≠ []) : (joinPlus (ms ++ [b])).getLast? = b.getLast? := by
  induction ms with
  | nil => simp [joinPlus]
  | cons m ms' ih =>
    rw [List.cons_append, joinPlus_cons, if_neg (by simp), List.getLast?_append]
    have hne := @joinPlus_append_ne_nil ms' _ hb
    cases hx : joinPlus (ms' ++ [b]) with
    | nil => exact absurd hx hne
    | cons y ys =>
      rw [hx] at ih
      rw [List.getLast?_cons_cons, ih]
      cases hg : b.getLast? with
      | none => exact absurd (List.getLast?_eq_none_iff.1 hg) hb
      | some g => rfl

lemma joinPlus_headflag {ms : List (List Char)} {b : List Char}
    (hb : GoodBase b) (hms : ∀ m ∈ ms, m ∈ modifiersInOrder) :
    headNonSpace (joinPlus (ms ++ [b])) = true := by
  cases ms with
  | nil => simpa [joinPlus] using (goodBase_all_flags hb).1
  | cons m ms' =>
    rw [List.cons_append, joinPlus_cons, if_neg (by simp)]
    have hmem := hms m (List.mem_cons_self m ms')
    have hflag : headNonSpace m = true := modifiersInOrder_headflag m hmem
    cases m with
    | nil => exact absurd rfl (modifiersInOrder_ne_nil _ hmem)
    | cons c t =>
      simp only [headNonSpace, List.cons_append, List.head?_cons] at hflag ⊢
      exact hflag

lemma joinPlus_lastflag {ms : List (List Char)} {b : List Char}
    (hb : GoodBase b) :
    lastNonSpace (joinPlus (ms ++ [b])) = true := by
  have hg := @joinPlus_getLast_append ms _ (goodBase_ne_nil hb)
  have hfl := (goodBase_all_flags hb).2
  unfold lastNonSpace at hfl ⊢
  rw [hg]
  exact hfl

lemma pyLowerList_joinPlus_fixed {ts : List (List Char)}
    (h : ∀ t ∈ ts, pyLowerList t = t) :
    pyLowerList (joinPlus ts) = joinPlus ts := by
  induction ts with
  | nil => rfl
  | cons t rest ih =>
    rw [joinPlus_cons]
    split
    · exact h t (List.mem_cons_self t rest)
    · have ht := h t (List.mem_cons_self t rest)
      have hrest := ih fun x hx => h x (List.mem_cons_of_mem t hx)
      unfold pyLowerList at ht hrest ⊢
      rw [List.map_append, ht, List.map_cons, hrest,
        show pyLowerChar '+' = '+' by decide]

lemma normalize_canonical {ms : List (List Char)} {b : List Char}
    (hsub : List.Sublist ms modifiersInOrder)
    (hfix : modifiersInOrder.filter (· ∈ ms) = ms)
    (hb : GoodBase b) :
    normalize_trigger_key ⟨joinPlus (ms ++ [b])⟩ =
      some ⟨joinPlus (ms ++ [b])⟩ := by
  have hmem : ∀ m ∈ ms, m ∈ modifiersInOrder := fun m hm => hsub.subset hm
  have hnodup : ms.Nodup := modifiersInOrder_nodup.sublist hsub
  have hstrip : stripChars (joinPlus (ms ++ [b])) = joinPlus (ms ++ [b]) :=
    stripChars_eq_self_of_flags (joinPlus_headflag hb hmem)
      (joinPlus_lastflag hb)
  have hlower : pyLowerList (joinPlus (ms ++ [b])) = joinPlus (ms ++ [b]) := by
    apply pyLowerList_joinPlus_fixed
    intro t ht
    rcases List.mem_append.1 ht with h1 | h2
    · exact modifiersInOrder_lower t (hmem t h1)
    · have hteq : t = b := by simpa using h2
      subst hteq
      exact goodBase_lower hb
  have hsplit : splitOnChar '+' (joinPlus (ms ++ [b])) = ms ++ [b] := by
    apply splitOnChar_joinPlus (by simp)
    intro t ht
    rcases List.mem_append.1 ht with h1 | h2
    · exact modifiersInOrder_no_plus t (hmem t h1)
    · have hteq : t = b := by simpa using h2
      subst hteq
      exact goodBase_no_plus hb
  have hlne : joinPlus (ms ++ [b]) ≠ [] :=
    joinPlus_append_ne_nil (goodBase_ne_nil hb)
  have hmap : (ms ++ [b]).map stripChars = ms ++ [b] := by
    have hcg : ∀ t ∈ ms ++ [b], stripChars t = id t := by
      intro t ht
      rcases List.mem_append.1 ht with h1 | h2
      · exact modifiersInOrder_strip t (hmem t h1)
      · have hteq : t = b := by simpa using h2
        subst hteq
        exact goodBase_strip hb
    rw [List.map_congr_left hcg, List.map_id]
  have htok : tokenizeTrigger ⟨joinPlus (ms ++ [b])⟩ = ms ++ [b] := by
    unfold tokenizeTrigger
    rw [show (String.mk (joinPlus (ms ++ [b]))).toList = joinPlus (ms ++ [b])
      from rfl, hstrip, hlower, hsplit, hmap]
    apply List.filter_eq_self.2
    intro t ht
    rcases List.mem_append.1 ht with h1 | h2
    · exact decide_eq_true (modifiersInOrder_ne_nil t (hmem t h1))
    · have hteq : t = b := by simpa using h2
      subst hteq
      exact decide_eq_true (goodBase_ne_nil hb)
  have hproc : processParts (ms ++ [b]) [] none = some (ms, some b) := by
    rw [processParts_mods_append ms [] [b] none hnodup
      (fun m hm => modifiersInOrder_classify m (hmem m hm))
      (fun m _ => List.not_mem_nil m)]
    simp only [List.nil_append, processParts, goodBase_classify hb]
  unfold normalize_trigger_key
  rw [show (String.mk (joinPlus (ms ++ [b]))).toList = joinPlus (ms ++ [b])
    from rfl, hstrip, hlower, if_neg hlne, htok]
  rw [if_neg (by simp)]
  unfold normalizeTokens
  rw [hproc]
  simp only [hfix]

/-- Claim C7 (confirmed): trigger normalization is idempotent — whenever
`normalize_trigger_key` accepts a raw string and returns a canonical combo
string, re-normalizing that canonical string returns it unchanged. -/
theorem normalize_trigger_key_idem (raw c : String)
    (h : normalize_trigger_key raw = some c) :
    normalize_trigger_key c = some c := by
  obtain ⟨mods, b, hb, _, hc⟩ := normalize_trigger_key_shape h
  have hsub : List.Sublist (modifiersInOrder.filter (· ∈ mods))
      modifiersInOrder := List.filter_sublist _
  have hfix : modifiersInOrder.filter
        (· ∈ modifiersInOrder.filter (· ∈ mods)) =
      modifiersInOrder.filter (· ∈ mods) := by
    apply List.filter_congr
    intro m hm
    apply decide_eq_decide.2
    constructor
    · intro hin
      exact ((List.mem_filter.1 hin).2 : decide (m ∈ mods) = true) |>
        fun hd => of_decide_eq_true hd
    · intro hin
      exact List.mem_filter.2 ⟨hm, decide_eq_true hin⟩
  have hceq : c = ⟨joinPlus (modifiersInOrder.filter (· ∈ mods) ++ [b])⟩ := by
    cases c with
    | mk data => exact congrArg String.mk hc
  rw [hceq]
  exact normalize_canonical hsub hfix hb

/-- Witness for C7: a concrete raw string, its canonical form, and the
re-normalization fixpoint. -/
theorem normalize_trigger_key_idem_witness :
    normalize_trigger_key "ctrl+shift+d" = some "ctrl+shift+d" :=
  normalize_trigger_key_idem "Control+Shift+D" "ctrl+shift+d" (by decide)

/-- Claim C3, counterexample: the input `"a+b"` contains two non-modifier
keys, yet `normalize_trigger_key` does not return `None` — the last base key
wins and the result is `"b"`. -/
theorem normalize_trigger_key_two_base_keys :
    normalize_trigger_key "a+b" = some "b" ∧
      normalize_trigger_key "a+b" ≠ none := by
  exact ⟨by decide, by decide⟩

/-- Claim C3 as amended (proved): `normalize_trigger_key` returns `None`
when the input has zero non-modifier keys or any unrecognized token; when
several non-modifier keys appear the last recognized one becomes the base
key, and every accepted result is the `+`-join of a subsequence of the fixed
modifier order `ctrl, shift, alt` followed by one recognized base key. -/
theorem normalize_trigger_key_classification (raw : String) :
    (∀ c, normalize_trigger_key raw = some c →
      ∃ ms b, List.Sublist ms modifiersInOrder ∧ GoodBase b ∧
        c.toList = joinPlus (ms ++ [b])) ∧
    ((∀ p ∈ tokenizeTrigger raw, isModifierToken p = true) →
      normalize_trigger_key raw = none) ∧
    ((∃ p ∈ tokenizeTrigger raw, classifyToken p = .bad) →
      normalize_trigger_key raw = none) := by
  refine ⟨?_, ?_, ?_⟩
  · intro c h
    obtain ⟨mods, b, hb, _, hc⟩ := normalize_trigger_key_shape h
    exact ⟨_, b, List.filter_sublist _, hb, hc⟩
  · intro hall
    unfold normalize_trigger_key
    split
    · rfl
    · split
      · rfl
      · unfold normalizeTokens
        obtain ⟨mods', hm⟩ := processParts_all_mods _ [] hall
        rw [hm]
  · intro hbad
    unfold normalize_trigger_key
    split
    · rfl
    · split
      · rfl
      · unfold normalizeTokens
        rw [processParts_has_bad _ [] none hbad]

/-- Witness for the amended C3: a combo with modifiers and base key, a
modifier-only rejection, and an unrecognized-token rejection, all concrete. -/
theorem normalize_trigger_key_classification_witness :
    (∃ ms b, List.Sublist ms modifiersInOrder ∧ GoodBase b ∧
      ("ctrl+shift+x" : String).toList = joinPlus (ms ++ [b])) ∧
    normalize_trigger_key "ctrl+shift" = none ∧
    normalize_trigger_key "ctrl+foo" = none := by
  refine ⟨(normalize_trigger_key_classification "shift+ctrl+x").1
    "ctrl+shift+x" (by decide), ?_, ?_⟩
  · exact (normalize_trigger_key_classification "ctrl+shift").2.1 (by decide)
  · exact (normalize_trigger_key_classification "ctrl+foo").2.2 (by decide)

lemma normalize_trigger_key_ne_empty {raw c : String}
    (h : normalize_trigger_key raw = some c) : c ≠ "" := by
  obtain ⟨mods, b, hb, _, hc⟩ := normalize_trigger_key_shape h
  intro he
  rw [he] at hc
  exact joinPlus_append_ne_nil (goodBase_ne_nil hb) hc.symm

lemma normalize_trigger_key_empty : normalize_trigger_key "" = none := by decide

/-! ### `AutoCorrectService` state and trigger setters -/

/-- The `AutoCorrectService` fields relevant to trigger configuration, the
pending/selection state machine, and incremental-region tracking
(autocorrect_service.py 36-100).  `submissions` is a ghost counter of
`executor.submit` calls used to state the at-most-one-in-flight invariant. -/
structure ServiceState where
  paragraphEnabled : Bool
  triggerKey : String
  clearBufferTriggerKey : String
  dictationTriggerKey : String
  pendingCorrection : Bool
  inSelectionMode : Bool
  currentCandidates : List String
  currentCandidateIndex : Nat
  currentPrefixText : String
  currentSuffixText : String
  currentRegionOriginal : String
  baselineText : String
  acceptedTextAccumulator : String
  lastInputSnapshot : String
  lastRegionSnapshot : String
  lastRequestedRegion : String
  submissions : Nat
deriving DecidableEq

/-- `AutoCorrectService.set_trigger_key` (autocorrect_service.py 327-350). -/
def set_trigger_key (s : ServiceState) (key : String) : Bool × ServiceState :=
  match normalize_trigger_key key with
  | none => (false, s)
  | some n =>
    if n = s.dictationTriggerKey then (false, s)
    else if s.clearBufferTriggerKey ≠ "" ∧ n = s.clearBufferTriggerKey then
      (false, s)
    else (true, {s with triggerKey := n})

/-- `AutoCorrectService.set_clear_buffer_trigger_key`
(autocorrect_service.py 355-379): an empty argument disables the trigger. -/
def set_clear_buffer_trigger_key (s : ServiceState) (key : String) :
    Bool × ServiceState :=
  if key = "" then (true, {s with clearBufferTriggerKey := ""})
  else
    match normalize_trigger_key key with
    | none => (false, s)
    | some n =>
      if n = s.triggerKey then (false, s)
      else if n = s.dictationTriggerKey then (false, s)
      else (true, {s with clearBufferTriggerKey := n})

/-- `AutoCorrectService.set_dictation_trigger_key`
(autocorrect_service.py 1054-1080): an empty argument is rejected. -/
def set_dictation_trigger_key (s : ServiceState) (key : String) :
    Bool × ServiceState :=
  if key = "" then (false, s)
  else
    match normalize_trigger_key key with
    | none => (false, s)
    | some n =>
      if n = s.triggerKey then (false, s)
      else if s.clearBufferTriggerKey ≠ "" ∧ n = s.clearBufferTriggerKey then
        (false, s)
      else (true, {s with dictationTriggerKey := n})

/-- The three configured trigger combos are pairwise distinct; the
clear-buffer trigger participates only when enabled (non-empty). -/
def TriggersDistinct (s : ServiceState) : Prop :=
  s.triggerKey ≠ s.dictationTriggerKey ∧
  (s.clearBufferTriggerKey ≠ "" →
    s.triggerKey ≠ s.clearBufferTriggerKey ∧
    s.dictationTriggerKey ≠ s.clearBufferTriggerKey)

instance (s : ServiceState) : Decidable (TriggersDistinct s) := by
  unfold TriggersDistinct
  infer_instance

/-- Claim C4 (confirmed): every trigger setter preserves pairwise
distinctness of the configured combos, and a setter whose normalized
argument collides with one of the other two configured combos returns
`false` and leaves the state unchanged. -/
theorem trigger_setters_distinct (s : ServiceState) (key : String)
    (hs : TriggersDistinct s) :
    TriggersDistinct (set_trigger_key s key).2 ∧
    TriggersDistinct (set_clear_buffer_trigger_key s key).2 ∧
    TriggersDistinct (set_dictation_trigger_key s key).2 ∧
    (∀ n, normalize_trigger_key key = some n →
      (n = s.dictationTriggerKey ∨ n = s.clearBufferTriggerKey) →
      set_trigger_key s key = (false, s)) ∧
    (∀ n, normalize_trigger_key key = some n →
      (n = s.triggerKey ∨ n = s.dictationTriggerKey) →
      set_clear_buffer_trigger_key s key = (false, s)) ∧
    (∀ n, normalize_trigger_key key = some n →
      (n = s.triggerKey ∨ n = s.clearBufferTriggerKey) →
      set_dictation_trigger_key s key = (false, s)) := by
  refine ⟨?_, ?_, ?_, ?_, ?_, ?_⟩
  · -- distinctness preserved by set_trigger_key
    unfold set_trigger_key
    cases hn : normalize_trigger_key key with
    | none => exact hs
    | some n =>
      by_cases h1 : n = s.dictationTriggerKey
      · simp only [if_pos h1]
        exact hs
      · simp only [if_neg h1]
        by_cases h2 : s.clearBufferTriggerKey ≠ "" ∧
            n = s.clearBufferTriggerKey
        · simp only [if_pos h2]
          exact hs
        · simp only [if_neg h2]
          refine ⟨h1, fun hne => ⟨?_, (hs.2 hne).2⟩⟩
          intro he
          exact h2 ⟨hne, he⟩
  · -- distinctness preserved by set_clear_buffer_trigger_key
    unfold set_clear_buffer_trigger_key
    by_cases hk : key = ""
    · rw [if_pos hk]
      exact ⟨hs.1, fun h => absurd rfl h⟩
    · rw [if_neg hk]
      cases hn : normalize_trigger_key key with
      | none => exact hs
      | some n =>
        by_cases h1 : n = s.triggerKey
        · simp only [if_pos h1]
          exact hs
        · simp only [if_neg h1]
          by_cases h2 : n = s.dictationTriggerKey
          · simp only [if_pos h2]
            exact hs
          · simp only [if_neg h2]
            exact ⟨hs.1, fun _ => ⟨fun he => h1 he.symm, fun he => h2 he.symm⟩⟩
  · -- distinctness preserved by set_dictation_trigger_key
    unfold set_dictation_trigger_key
    by_cases hk : key = ""
    · rw [if_pos hk]
      exact hs
    · rw [if_neg hk]
      cases hn : normalize_trigger_key key with
      | none => exact hs
      | some n =>
        by_cases h1 : n = s.triggerKey
        · simp only [if_pos h1]
          exact hs
        · simp only [if_neg h1]
          by_cases h2 : s.clearBufferTriggerKey ≠ "" ∧
              n = s.clearBufferTriggerKey
          · simp only [if_pos h2]
            exact hs
          · simp only [if_neg h2]
            refine ⟨fun he => h1 he.symm, fun hne => ⟨(hs.2 hne).1, ?_⟩⟩
            intro he
            exact h2 ⟨hne, he⟩
  · -- collision rejection for set_trigger_key
    intro n hn hcol
    unfold set_trigger_key
    rw [hn]
    rcases hcol with h1 | h1
    · simp [if_pos h1]
    · by_cases h2 : n = s.dictationTriggerKey
      · simp [if_pos h2]
      · simp [if_neg h2, if_pos (⟨by
          rw [← h1]
          exact normalize_trigger_key_ne_empty hn, h1⟩ :
          s.clearBufferTriggerKey ≠ "" ∧ n = s.clearBufferTriggerKey)]
  · -- collision rejection for set_clear_buffer_trigger_key
    intro n hn hcol
    have hk : key ≠ "" := by
      intro he
      rw [he, normalize_trigger_key_empty] at hn
      cases hn
    unfold set_clear_buffer_trigger_key
    rw [if_neg hk, hn]
    rcases hcol with h1 | h1
    · simp [if_pos h1]
    · by_cases h2 : n = s.triggerKey
      · simp [if_pos h2]
      · simp [if_neg h2, if_pos h1]
  · -- collision rejection for set_dictation_trigger_key
    intro n hn hcol
    have hk : key ≠ "" := by
      intro he
      rw [he, normalize_trigger_key_empty] at hn
      cases hn
    unfold set_dictation_trigger_key
    rw [if_neg hk, hn]
    rcases hcol with h1 | h1
    · simp [if_pos h1]
    · by_cases h2 : n = s.triggerKey
      · simp [if_pos h2]
      · simp [if_neg h2, if_pos (⟨by
          rw [← h1]
          exact normalize_trigger_key_ne_empty hn, h1⟩ :
          s.clearBufferTriggerKey ≠ "" ∧ n = s.clearBufferTriggerKey)]

/-- A concretely populated service state used by witnesses: the default
trigger configuration from `AutoCorrectService.__init__`. -/
def sampleServiceState : ServiceState :=
  ⟨true, "ctrl+space", "ctrl+shift+delete", "ctrl+shift+d", false, false,
   [], 0, "", "", "", "", "", "", "", "", 0⟩

/-- Witness for C4: with the default configuration, setting the correction
trigger to the configured dictation combo is rejected without mutation, and
distinctness is preserved by a successful dictation-trigger change. -/
theorem trigger_setters_distinct_witness :
    set_trigger_key sampleServiceState "ctrl+shift+d" =
      (false, sampleServiceState) ∧
    TriggersDistinct (set_dictation_trigger_key sampleServiceState "f8").2 := by
  constructor
  · exact (trigger_setters_distinct sampleServiceState "ctrl+shift+d"
      (by decide)).2.2.2.1 "ctrl+shift+d" (by decide) (Or.inl rfl)
  · exact (trigger_setters_distinct sampleServiceState "f8" (by decide)).2.2.1

/-! ### `AutoCorrectService._trigger_correction` (autocorrect_service.py 591-764) -/

/-- Environment for one `_trigger_correction` run: the keystroke-buffer
text, the outcomes of the clipboard fall-back reads
(`select_all_text` / `get_active_text`, with `none` covering both a `None`
text and a raised exception), and whether `executor.submit` succeeds. -/
structure TriggerEnv where
  bufferText : String
  selectAllOk : Bool
  fallbackText : Option String
  submitOk : Bool

/-- Python `not text or not text.strip()`. -/
def pyBlank (s : String) : Bool :=
  decide (s = "") || decide (stripChars s.toList = [])

/-- Python `str.rfind` (highest index at which `pat` occurs in `hay`), as
`none` when absent where the source uses `-1`. -/
def strRfind (hay pat : String) : Option Nat :=
  ((List.range (hay.toList.length + 1)).filter
    (fun i => pat.toList.isPrefixOf (hay.toList.drop i))).getLast?

/-- `AutoCorrectService._get_delta` (autocorrect_service.py 771-787): the
suffix of `fullText` past the baseline; a baseline mismatch clears the
baseline and refines the whole text.  (The source returns the raw `delta`
both when it is non-empty and via the explicit `""` when empty, so the
branch collapses to returning the dropped suffix.) -/
def getDelta (s : ServiceState) (fullText : String) : String × ServiceState :=
  if s.baselineText = "" then (fullText, s)
  else if fullText.startsWith s.baselineText then
    (fullText.drop s.baselineText.length, s)
  else (fullText, {s with baselineText := ""})

/-- `AutoCorrectService._trigger_correction` (autocorrect_service.py
591-764).  State writes follow the source order; GUI loading-indicator
callbacks have no state effect and are omitted; `submitOk = false` covers
both a missing executor and a raised `submit`.  Nat subtraction in the
`rfind = -1` fall-back matches the source's `max(0, ...)`. -/
def triggerCorrection (env : TriggerEnv) (s : ServiceState) : ServiceState :=
  if s.paragraphEnabled = false then s
  else if s.pendingCorrection then s
  else
    let s1 := {s with pendingCorrection := true, currentPrefixText := "",
                      currentSuffixText := "", currentRegionOriginal := ""}
    let readRes : Option String :=
      if pyBlank env.bufferText then
        if env.selectAllOk = false then none
        else
          match env.fallbackText with
          | none => none
          | some t => if pyBlank t then none else some t
      else some env.bufferText
    match readRes with
    | none => {s1 with pendingCorrection := false}
    | some bufferText =>
      let fullText :=
        if s1.acceptedTextAccumulator ≠ "" then
          if bufferText.startsWith s1.acceptedTextAccumulator then bufferText
          else s1.acceptedTextAccumulator ++ bufferText
        else bufferText
      let s2 := {s1 with lastInputSnapshot := fullText}
      if fullText.length > 10000 then {s2 with pendingCorrection := false}
      else
        let rs := getDelta s2 fullText
        let region := rs.1
        let s4 := {rs.2 with currentRegionOriginal := region,
                             lastRegionSnapshot := region}
        let regionPayload := String.mk (stripChars region.toList)
        let s5 := {s4 with lastRequestedRegion := regionPayload}
        let prefixLen :=
          if region ≠ "" then
            match strRfind fullText region with
            | some i => i
            | none => fullText.length - region.length
          else fullText.length
        let suffixStart := min fullText.length (prefixLen + region.length)
        let s6 := {s5 with currentPrefixText := fullText.take prefixLen,
                           currentSuffixText := fullText.drop suffixStart}
        if regionPayload = "" then
          {s6 with pendingCorrection := false, currentPrefixText := "",
                   currentSuffixText := "", currentRegionOriginal := ""}
        else if env.submitOk then {s6 with submissions := s6.submissions + 1}
        else
          {s6 with pendingCorrection := false, currentPrefixText := "",
                   currentSuffixText := "", currentRegionOriginal := ""}

lemma getDelta_submissions (s : ServiceState) (t : String) :
    (getDelta s t).2.submissions = s.submissions := by
  unfold getDelta
  split
  · rfl
  · split
    · rfl
    · rfl

/-- Claim C2 (confirmed): while a correction is pending, a further trigger
leaves the whole state unchanged and submits nothing, so the worker-pool
submission count stays where it is; and a single trigger run submits at
most one request. -/
theorem trigger_correction_single_flight (env : TriggerEnv)
    (s : ServiceState) :
    (s.pendingCorrection = true →
      triggerCorrection env s = s ∧
      (triggerCorrection env s).submissions = s.submissions) ∧
    (triggerCorrection env s).submissions ≤ s.submissions + 1 := by
  constructor
  · intro h
    have hg : triggerCorrection env s = s := by
      unfold triggerCorrection
      by_cases hp : s.paragraphEnabled = false
      · rw [if_pos hp]
      · rw [if_neg hp, if_pos h]
    exact ⟨hg, by rw [hg]⟩
  · unfold triggerCorrection
    (repeat' split) <;> (try simp_arith [getDelta_submissions]) <;>
      (repeat' split) <;> (try simp_arith [getDelta_submissions])

/-- `sampleServiceState` with a correction already in flight. -/
def samplePendingState : ServiceState :=
  { sampleServiceState with
    pendingCorrection := true
    submissions := 1 }

/-- Witness for C2: a concrete pending state is left untouched by a trigger
with a populated environment. -/
theorem trigger_correction_single_flight_witness :
    triggerCorrection ⟨"Helo wrld", true, none, true⟩ samplePendingState =
      samplePendingState ∧
    (triggerCorrection ⟨"Helo wrld", true, none, true⟩
      samplePendingState).submissions = 1 :=
  (trigger_correction_single_flight ⟨"Helo wrld", true, none, true⟩
    samplePendingState).1 rfl

/-! ### The hook exception handler (autocorrect_service.py 511-518) -/

/-- The `except` clause of `AutoCorrectService._on_key_event`
(autocorrect_service.py 511-518): on any exception escaping the key-event
dispatch, the handler resets `_in_selection_mode` and `_pending_correction`
and returns; no other field is written. -/
def onKeyEventExceptClause (s : ServiceState) : ServiceState :=
  {s with inSelectionMode := false, pendingCorrection := false}

/-- A concrete state with a live selection session. -/
def sampleSelectingState : ServiceState :=
  { sampleServiceState with
    inSelectionMode := true
    currentCandidates := ["Hello world", "Hello, world!"]
    currentCandidateIndex := 1
    currentPrefixText := "Dear "
    currentSuffixText := "."
    currentRegionOriginal := "Helo wrld" }

/-- Claim C5, counterexample: a hook-callback exception raised while a
selection session is live leaves the candidate list, candidate index and
prefix/suffix/region tracking populated — the session data is not cleared,
only the two flags are. -/
theorem on_key_event_exception_keeps_session :
    (onKeyEventExceptClause sampleSelectingState).currentCandidates =
      ["Hello world", "Hello, world!"] ∧
    (onKeyEventExceptClause sampleSelectingState).currentCandidates ≠ [] ∧
    (onKeyEventExceptClause sampleSelectingState).currentCandidateIndex = 1 := by
  exact ⟨rfl, by decide, rfl⟩

/-- Claim C5 as amended (proved): the hook exception handler forces the
state machine back to `Idle` — both the selection-mode and the
pending-correction flags end false — but it clears no session data: the
candidate list, candidate index and prefix/suffix/region tracking are all
left exactly as they were. -/
theorem on_key_event_exception_resets_flags (s : ServiceState) :
    (onKeyEventExceptClause s).inSelectionMode = false ∧
    (onKeyEventExceptClause s).pendingCorrection = false ∧
    (onKeyEventExceptClause s).currentCandidates = s.currentCandidates ∧
    (onKeyEventExceptClause s).currentCandidateIndex =
      s.currentCandidateIndex ∧
    (onKeyEventExceptClause s).currentPrefixText = s.currentPrefixText ∧
    (onKeyEventExceptClause s).currentSuffixText = s.currentSuffixText ∧
    (onKeyEventExceptClause s).currentRegionOriginal =
      s.currentRegionOriginal :=
  ⟨rfl, rfl, rfl, rfl, rfl, rfl, rfl⟩

/-! ### `KeystrokeBuffer` (keystroke_buffer.py) -/

/-- Lookup in an insertion-ordered association list (a Python dict's items). -/
def alGet (l : List (Nat × List Char)) (k : Nat) : Option (List Char) :=
  match l with
  | [] => none
  | (k2, v) :: rest => if k = k2 then some v else alGet rest k

/-- Write to an insertion-ordered association list with Python-dict
semantics: updating an existing key keeps its position, a new key is
appended at the end. -/
def alSet (l : List (Nat × List Char)) (k : Nat) (v : List Char) :
    List (Nat × List Char) :=
  match l with
  | [] => [(k, v)]
  | (k2, v2) :: rest =>
    if k = k2 then (k2, v) :: rest else (k2, v2) :: alSet rest k v

/-- `KeystrokeBuffer` state (keystroke_buffer.py 23-67): per-window buffers
as a Python dict (insertion-ordered association list), the tracked
foreground window, and the focus/cleanup timing fields.  `time.time()` is
modelled in integer tenths of a second — an order-preserving rescaling
under which the source's intervals `0.1` and `60.0` become `1` and `600`. -/
structure KSBuffer where
  maxBufferSize : Nat
  buffers : List (Nat × List Char)
  currentWindow : Option Nat
  lastFocusCheck : Int
  lastCleanup : Int
  focusCheckInterval : Int
  cleanupInterval : Int
  maxWindows : Nat
deriving DecidableEq

/-- `KeystrokeBuffer.__init__` (keystroke_buffer.py 23-67); intervals in
tenths of a second. -/
def KeystrokeBuffer_init (maxBufferSize : Nat := 10000) : KSBuffer :=
  ⟨maxBufferSize, [], none, 0, 0, 1, 600, 10⟩

/-- Environment for one `KeystrokeBuffer` call: the current `time.time()`
(in tenths of a second) and the result of `_get_foreground_window()`
(`none` covers a missing win32 API, a zero handle, and a raised
exception). -/
structure KsEnv where
  now : Int
  fg : Option Nat
deriving DecidableEq

/-- The `_ignore_keys` set (keystroke_buffer.py 54-67). -/
def ignoreKeys : List String :=
  ["shift", "ctrl", "alt", "win",
   "left shift", "right shift",
   "left ctrl", "right ctrl",
   "left alt", "right alt",
   "left windows", "right windows",
   "caps lock", "num lock", "scroll lock",
   "pause", "print screen", "insert",
   "f1", "f2", "f3", "f4", "f5", "f6",
   "f7", "f8", "f9", "f10", "f11", "f12",
   "up", "down", "left", "right",
   "page up", "page down", "home", "end",
   "esc", "delete"]

/-- The `_key_mapping` dict (keystroke_buffer.py 47-51). -/
def keyMapping (name : String) : Option Char :=
  if name = "space" then some ' '
  else if name = "enter" then some '\n'
  else if name = "tab" then some '\t'
  else none

/-- Character appended for a key name (keystroke_buffer.py 137-145): a
mapped special key, a single-character name, or nothing. -/
def charForKey (name : String) : Option Char :=
  match keyMapping name with
  | some c => some c
  | none =>
    match name.toList with
    | [c] => some c
    | _ => none

/-- Python `others[-(maxWindows-1):]` with signed-index semantics
(`-0` is the whole list, a positive index drops from the front). -/
def pySliceFrom (x : Int) (l : List Nat) : List Nat :=
  if 0 ≤ x then l.drop x.toNat
  else l.drop (l.length - min x.natAbs l.length)

/-- `KeystrokeBuffer.cleanup_old_buffers` (keystroke_buffer.py 252-277):
keep the current window (Python truthiness drops a zero handle) plus the
slice `other_windows[-(max_windows-1):]` of the remaining keys in dict
insertion order, then rebuild the dict in that order. -/
def cleanup_old_buffers (b : KSBuffer) (maxWindows : Nat) : KSBuffer :=
  if b.buffers.length ≤ maxWindows then b
  else
    let keepHead : List Nat :=
      match b.currentWindow with
      | some w => if w = 0 then [] else [w]
      | none => []
    let others := (b.buffers.map Prod.fst).filter
      (fun w => decide (b.currentWindow ≠ some w))
    let keep := keepHead ++ pySliceFrom (-((maxWindows : Int) - 1)) others
    let newBuffers := keep.foldl
      (fun acc w =>
        match alGet b.buffers w with
        | some v => alSet acc w v
        | none => acc) []
    {b with buffers := newBuffers}

/-- `KeystrokeBuffer._update_current_window` (keystroke_buffer.py 81-103):
rate-limited focus poll; on a focus change, periodically triggers
`cleanup_old_buffers(self._max_windows)`. -/
def updateCurrentWindow (env : KsEnv) (b : KSBuffer) : Bool × KSBuffer :=
  if env.now - b.lastFocusCheck < b.focusCheckInterval then (false, b)
  else
    let b1 := {b with lastFocusCheck := env.now}
    if env.fg ≠ b1.currentWindow then
      let b2 := {b1 with currentWindow := env.fg}
      let b3 :=
        if env.now - b2.lastCleanup > b2.cleanupInterval then
          cleanup_old_buffers {b2 with lastCleanup := env.now} b2.maxWindows
        else b2
      (true, b3)
    else (false, b1)

/-- Body of `KeystrokeBuffer.on_key_press` after the focus poll
(keystroke_buffer.py 117-154), acting on the post-poll state. -/
def onKeyPressCore (b2 : KSBuffer) (keyName : String)
    (isBackspace : Bool) : KSBuffer :=
  match b2.currentWindow with
  | none => b2
  | some w =>
    let b3 :=
      if (alGet b2.buffers w).isNone then
        {b2 with buffers := alSet b2.buffers w []}
      else b2
    let buf := (alGet b3.buffers w).getD []
    if isBackspace || keyName = "backspace" then
      if buf.length > 0 then
        {b3 with buffers := alSet b3.buffers w buf.dropLast}
      else b3
    else if keyName ∈ ignoreKeys then b3
    else
      match charForKey keyName with
      | none => b3
      | some c =>
        let buf2 := buf ++ [c]
        let buf3 :=
          if buf2.length > b3.maxBufferSize then
            takeLastN b3.maxBufferSize buf2
          else buf2
        {b3 with buffers := alSet b3.buffers w buf3}

/-- `KeystrokeBuffer.on_key_press` (keystroke_buffer.py 105-154): poll the
foreground window, then update the current window's buffer. -/
def on_key_press (env : KsEnv) (b : KSBuffer) (keyName : String)
    (isBackspace : Bool) : KSBuffer :=
  onKeyPressCore (updateCurrentWindow env b).2 keyName isBackspace

/-- `KeystrokeBuffer.get_buffer` (keystroke_buffer.py 156-174); an explicit
window handle reads the dict directly, `none` re-polls focus first. -/
def get_buffer (env : KsEnv) (b : KSBuffer) (windowHandle : Option Nat) :
    List Char × KSBuffer :=
  match windowHandle with
  | some w => ((alGet b.buffers w).getD [], b)
  | none =>
    let b2 := (updateCurrentWindow env b).2
    match b2.currentWindow with
    | none => ([], b2)
    | some w => ((alGet b2.buffers w).getD [], b2)

/-- The front-trimming applied after an append (keystroke_buffer.py
150-152): keep the most recent `cap` characters. -/
def capTrim (cap : Nat) (l : List Char) : List Char :=
  if l.length > cap then takeLastN cap l else l

/-- Spec-level iteration: feed a list of printable characters to
`on_key_press` one at a time under a fixed environment. -/
def typeChars (env : KsEnv) (b : KSBuffer) (cs : List Char) : KSBuffer :=
  cs.foldl (fun acc c => on_key_press env acc (String.mk [c]) false) b

/-! ### Lemmas for the keystroke shadow buffer -/

lemma alGet_alSet_self (l : List (Nat × List Char)) (k : Nat) (v : List Char) :
    alGet (alSet l k v) k = some v := by
  induction l with
  | nil => simp [alSet, alGet]
  | cons kv rest ih =>
    obtain ⟨k2, v2⟩ := kv
    simp only [alSet]
    by_cases h : k = k2
    · simp [alGet, h]
    · simp [alGet, h, ih]

lemma alGet_alSet_ne (l : List (Nat × List Char)) (k k3 : Nat) (v : List Char)
    (h : k3 ≠ k) : alGet (alSet l k v) k3 = alGet l k3 := by
  induction l with
  | nil => simp [alSet, alGet, h]
  | cons kv rest ih =>
    obtain ⟨k2, v2⟩ := kv
    simp only [alSet]
    by_cases h2 : k = k2
    · subst h2
      simp [alGet, h]
    · simp only [alGet, if_neg h2]
      by_cases h3 : k3 = k2
      · simp [alGet, h3]
      · simp [alGet, h3, ih]

lemma capTrim_of_le {cap : Nat} {l : List Char} (h : l.length ≤ cap) :
    capTrim cap l = l := by
  unfold capTrim
  rw [if_neg (by omega)]

lemma capTrim_length_le (cap : Nat) (l : List Char) :
    (capTrim cap l).length ≤ cap := by
  unfold capTrim
  split
  · rename_i h
    unfold takeLastN
    rw [List.length_drop]
    omega
  · rename_i h
    omega

lemma capTrim_capTrim_append (cap : Nat) (l r : List Char) :
    capTrim cap (capTrim cap l ++ r) = capTrim cap (l ++ r) := by
  by_cases h : l.length ≤ cap
  · rw [capTrim_of_le h]
  · have hgt : cap < l.length := by omega
    have h1 : capTrim cap l = l.drop (l.length - cap) := by
      unfold capTrim takeLastN
      rw [if_pos (by omega)]
    rw [h1]
    have hlen : (l.drop (l.length - cap)).length = cap := by
      rw [List.length_drop]
      omega
    unfold capTrim takeLastN
    rw [List.length_append, List.length_append, hlen]
    by_cases hr : r.length = 0
    · have hre : r = [] := List.length_eq_zero.1 hr
      subst hre
      simp only [List.append_nil, List.length_nil]
      rw [if_neg (by omega), if_pos (by omega)]
      congr 1
    · rw [if_pos (by omega), if_pos (by omega)]
      by_cases hrc : r.length ≤ cap
      · rw [List.drop_append_of_le_length (by omega),
          List.drop_append_of_le_length (by omega), List.drop_drop]
        congr 2
        omega
      · have e1 : cap + r.length - cap = (l.drop (l.length - cap)).length +
            (r.length - cap) := by
          rw [hlen]
          omega
        rw [e1, List.drop_append]
        have e3 : l.length + r.length - cap = l.length + (r.length - cap) := by
          omega
        rw [e3, List.drop_append]

/-- The per-key buffer transformation of `on_key_press`
(keystroke_buffer.py 126-154), as a pure function of the old buffer. -/
def keystrokeStep (cap : Nat) (buf : List Char) (name : String)
    (isBackspace : Bool) : List Char :=
  if isBackspace || name = "backspace" then buf.dropLast
  else if name ∈ ignoreKeys then buf
  else
    match charForKey name with
    | none => buf
    | some c => capTrim cap (buf ++ [c])

lemma updateCurrentWindow_fixed {env : KsEnv} {b : KSBuffer} {w : Nat}
    (hc : b.currentWindow = some w) (hf : env.fg = some w) :
    (updateCurrentWindow env b).2 =
      if env.now - b.lastFocusCheck < b.focusCheckInterval then b
      else {b with lastFocusCheck := env.now} := by
  unfold updateCurrentWindow
  split
  · rfl
  · dsimp only
    rw [if_neg (by simp [hf, hc])]

lemma onKeyPressCore_spec {b2 : KSBuffer} {w : Nat}
    (hc : b2.currentWindow = some w) (name : String) (isB : Bool) :
    (alGet (onKeyPressCore b2 name isB).buffers w).getD [] =
      keystrokeStep b2.maxBufferSize ((alGet b2.buffers w).getD [])
        name isB ∧
    (onKeyPressCore b2 name isB).currentWindow = b2.currentWindow ∧
    (onKeyPressCore b2 name isB).maxBufferSize = b2.maxBufferSize := by
  unfold onKeyPressCore
  rw [hc]
  rcases hget : alGet b2.buffers w with _ | v
  · by_cases hbk : (isB || decide (name = "backspace")) = true
    · simp [hget, hbk, keystrokeStep, alGet_alSet_self, hc]
    · by_cases hig : name ∈ ignoreKeys
      · simp [hget, hbk, hig, keystrokeStep, alGet_alSet_self, hc]
      · rcases hch : charForKey name with _ | c
        · simp [hget, hbk, hig, hch, keystrokeStep, alGet_alSet_self, hc]
        · simp [hget, hbk, hig, hch, keystrokeStep, alGet_alSet_self,
            capTrim, takeLastN, hc]
  · by_cases hbk : (isB || decide (name = "backspace")) = true
    · by_cases hv : 0 < v.length
      · simp [hget, hbk, hv, keystrokeStep, alGet_alSet_self, hc]
      · have hnil : v = [] := by
          cases v
          · rfl
          · simp at hv
        subst hnil
        simp [hget, hbk, keystrokeStep, hc]
    · by_cases hig : name ∈ ignoreKeys
      · simp [hget, hbk, hig, keystrokeStep, hc]
      · rcases hch : charForKey name with _ | c
        · simp [hget, hbk, hig, hch, keystrokeStep, hc]
        · simp [hget, hbk, hig, hch, keystrokeStep, alGet_alSet_self,
            capTrim, takeLastN, hc]

lemma updateCurrentWindow_fixed_fields {env : KsEnv} {b : KSBuffer} {w : Nat}
    (hc : b.currentWindow = some w) (hf : env.fg = some w) :
    (updateCurrentWindow env b).2.currentWindow = some w ∧
    (updateCurrentWindow env b).2.buffers = b.buffers ∧
    (updateCurrentWindow env b).2.maxBufferSize = b.maxBufferSize := by
  rw [updateCurrentWindow_fixed hc hf]
  split
  · exact ⟨hc, rfl, rfl⟩
  · exact ⟨hc, rfl, rfl⟩

lemma on_key_press_step {env : KsEnv} {b : KSBuffer} {w : Nat}
    (hc : b.currentWindow = some w) (hf : env.fg = some w)
    (name : String) (isB : Bool) :
    (alGet (on_key_press env b name isB).buffers w).getD [] =
      keystrokeStep b.maxBufferSize ((alGet b.buffers w).getD []) name isB ∧
    (on_key_press env b name isB).currentWindow = some w ∧
    (on_key_press env b name isB).maxBufferSize = b.maxBufferSize := by
  obtain ⟨h1, h2, h3⟩ := updateCurrentWindow_fixed_fields hc hf
  unfold on_key_press
  obtain ⟨g1, g2, g3⟩ := onKeyPressCore_spec h1 name isB
  refine ⟨?_, ?_, ?_⟩
  · rw [g1, h2, h3]
  · rw [g2, h1]
  · rw [g3, h3]

lemma string_singleton_ne {name : String} {c : Char} (h : name.toList = [c])
    {t : String} (ht : t.toList.length ≠ 1) : name ≠ t := by
  intro he
  subst he
  rw [h] at ht
  simp at ht

lemma keyMapping_singleton {name : String} {c : Char}
    (h : name.toList = [c]) : keyMapping name = none := by
  unfold keyMapping
  rw [if_neg (string_singleton_ne h (by decide)),
    if_neg (string_singleton_ne h (by decide)),
    if_neg (string_singleton_ne h (by decide))]

lemma keystrokeStep_printable {cap : Nat} {buf : List Char} {name : String}
    {c : Char} (hname : name.toList = [c]) :
    keystrokeStep cap buf name false = capTrim cap (buf ++ [c]) := by
  have hnb : name ≠ "backspace" := string_singleton_ne hname (by decide)
  have hig : name ∉ ignoreKeys := by
    intro hm
    have hlen := (by decide : ∀ k ∈ ignoreKeys, k.toList.length ≠ 1) name hm
    rw [hname] at hlen
    simp at hlen
  have hch : charForKey name = some c := by
    unfold charForKey
    rw [keyMapping_singleton hname]
    show (match name.toList with
      | [c] => some c
      | _ => none) = some c
    rw [hname]
  simp [keystrokeStep, hnb, hig, hch]

lemma keystrokeStep_backspace (cap : Nat) (buf : List Char) (name : String) :
    keystrokeStep cap buf name true = buf.dropLast := by
  simp [keystrokeStep]

lemma keystrokeStep_ignored {cap : Nat} {buf : List Char} {name : String}
    (h : name ∈ ignoreKeys) : keystrokeStep cap buf name false = buf := by
  have hnb : name ≠ "backspace" := by
    intro he
    subst he
    revert h
    decide
  simp [keystrokeStep, h, hnb]

lemma typeChars_read {env : KsEnv} {w : Nat} :
    ∀ (cs : List Char) (b : KSBuffer), b.currentWindow = some w →
      env.fg = some w →
      ((alGet b.buffers w).getD []).length ≤ b.maxBufferSize →
      (alGet (typeChars env b cs).buffers w).getD [] =
        capTrim b.maxBufferSize ((alGet b.buffers w).getD [] ++ cs) ∧
      (typeChars env b cs).currentWindow = some w ∧
      (typeChars env b cs).maxBufferSize = b.maxBufferSize := by
  intro cs
  induction cs with
  | nil =>
    intro b hc hf hlen
    refine ⟨?_, hc, rfl⟩
    rw [List.append_nil, capTrim_of_le hlen]
    rfl
  | cons c cs ih =>
    intro b hc hf hlen
    obtain ⟨h1, h2, h3⟩ := on_key_press_step hc hf (String.mk [c]) false
    have hprint : keystrokeStep b.maxBufferSize
        ((alGet b.buffers w).getD []) (String.mk [c]) false =
        capTrim b.maxBufferSize ((alGet b.buffers w).getD [] ++ [c]) :=
      keystrokeStep_printable rfl
    have hunf : typeChars env b (c :: cs) =
        typeChars env (on_key_press env b (String.mk [c]) false) cs := rfl
    rw [hunf]
    have hlen2 : ((alGet (on_key_press env b (String.mk [c])
        false).buffers w).getD []).length ≤
        (on_key_press env b (String.mk [c]) false).maxBufferSize := by
      rw [h1, hprint, h3]
      exact capTrim_length_le _ _
    obtain ⟨g1, g2, g3⟩ := ih _ h2 hf hlen2
    refine ⟨?_, g2, by rw [g3, h3]⟩
    rw [g1, h3, h1, hprint, capTrim_capTrim_append, List.append_assoc]
    simp

/-- A keystroke-buffer state focused on window 5, as left by the first
focus poll. -/
def sampleKsState : KSBuffer :=
  { KeystrokeBuffer_init 10000 with
    currentWindow := some 5
    lastFocusCheck := 10000
    lastCleanup := 10000 }

/-- Environment keeping the focus on window 5. -/
def sampleKsEnv : KsEnv := ⟨10000, some 5⟩

/-- Typing "hello" into window 5 and pressing backspace twice. -/
def helloTwoBackspaces : KSBuffer :=
  on_key_press sampleKsEnv
    (on_key_press sampleKsEnv
      (typeChars sampleKsEnv sampleKsState "hello".toList)
      "backspace" true)
    "backspace" true

/-- Claim C8 (confirmed): for a fixed focused window, a printable
single-character key appends that character (trimming to the most recent
`cap` characters), backspace drops the last character and is a no-op on an
empty buffer, ignored key names leave the buffer content unchanged, a typed
character sequence leaves exactly the most recent `cap` characters of the
accumulated text, and typing "hello" then two backspaces reads back as
"hel". -/
theorem keystroke_buffer_on_key_spec (env : KsEnv) (b : KSBuffer) (w : Nat)
    (hc : b.currentWindow = some w) (hf : env.fg = some w) :
    (∀ name c, name.toList = [c] →
      (alGet (on_key_press env b name false).buffers w).getD [] =
        capTrim b.maxBufferSize ((alGet b.buffers w).getD [] ++ [c])) ∧
    (∀ name, (alGet (on_key_press env b name true).buffers w).getD [] =
      ((alGet b.buffers w).getD []).dropLast) ∧
    ((alGet b.buffers w).getD [] = [] → ∀ name,
      (alGet (on_key_press env b name true).buffers w).getD [] = []) ∧
    (∀ name, name ∈ ignoreKeys →
      (alGet (on_key_press env b name false).buffers w).getD [] =
        (alGet b.buffers w).getD []) ∧
    (∀ cs, ((alGet b.buffers w).getD []).length ≤ b.maxBufferSize →
      (alGet (typeChars env b cs).buffers w).getD [] =
        capTrim b.maxBufferSize ((alGet b.buffers w).getD [] ++ cs)) ∧
    (get_buffer sampleKsEnv helloTwoBackspaces (some 5)).1 = "hel".toList := by
  refine ⟨?_, ?_, ?_, ?_, ?_, by decide⟩
  · intro name c hname
    rw [(on_key_press_step hc hf name false).1, keystrokeStep_printable hname]
  · intro name
    rw [(on_key_press_step hc hf name true).1, keystrokeStep_backspace]
  · intro hempty name
    rw [(on_key_press_step hc hf name true).1, keystrokeStep_backspace,
      hempty]
    rfl
  · intro name hig
    rw [(on_key_press_step hc hf name false).1, keystrokeStep_ignored hig]
  · intro cs hlen
    exact (typeChars_read cs b hc hf hlen).1

/-- Witness for C8: typing "h" into an empty window-5 buffer yields "h",
and the ignored key "left ctrl" leaves it unchanged. -/
theorem keystroke_buffer_on_key_spec_witness :
    (alGet (on_key_press sampleKsEnv sampleKsState "h" false).buffers
      5).getD [] = ['h'] ∧
    (alGet (on_key_press sampleKsEnv sampleKsState "left ctrl"
      false).buffers 5).getD [] = [] := by
  obtain ⟨h1, _, _, h4, _, _⟩ :=
    keystroke_buffer_on_key_spec sampleKsEnv sampleKsState 5 rfl rfl
  constructor
  · exact (h1 "h" 'h' rfl).trans (by decide)
  · exact (h4 "left ctrl" (by decide)).trans (by decide)

/-! ### Claim C6: the eviction scenario -/

/-- Window 1 is focused at t=10000 and receives `a`. -/
def ksbStep1 : KSBuffer :=
  on_key_press ⟨10000, some 1⟩ (KeystrokeBuffer_init 10000) "a" false

/-- Window 2 is focused at t=10010 and receives `b`. -/
def ksbStep2 : KSBuffer := on_key_press ⟨10010, some 2⟩ ksbStep1 "b" false

/-- Window 1 is focused again at t=10020 and receives `x` — window 1 is now
the most recently touched of {1, 2}. -/
def ksbStep3 : KSBuffer := on_key_press ⟨10020, some 1⟩ ksbStep2 "x" false

/-- Window 3 is focused at t=10030 and receives `c`. -/
def ksbStep4 : KSBuffer := on_key_press ⟨10030, some 3⟩ ksbStep3 "c" false

/-- Claim C6 (code bug): evaluating `cleanup_old_buffers` with ceiling K=2
on the scenario above.  Window 1's buffer was touched (t=10020) after
window 2's (t=10010), so a least-recently-touched policy must evict
window 2; instead the pass keeps the dict-insertion-order suffix
`[2]` plus the current window 3, evicting the most recently touched
window 1, whose buffer then reads back as empty. -/
theorem cleanup_old_buffers_evicts_recently_touched :
    ksbStep4.buffers =
      [(1, "ax".toList), (2, "b".toList), (3, "c".toList)] ∧
    ksbStep4.currentWindow = some 3 ∧
    (cleanup_old_buffers ksbStep4 2).buffers =
      [(3, "c".toList), (2, "b".toList)] ∧
    (get_buffer ⟨10040, some 3⟩ (cleanup_old_buffers ksbStep4 2)
      (some 1)).1 = [] ∧
    (get_buffer ⟨10040, some 3⟩ (cleanup_old_buffers ksbStep4 2)
      (some 2)).1 = "b".toList := by
  refine ⟨by decide, by decide, by decide, by decide, by decide⟩

/-! ### `TextBufferManager` clipboard write path (text_buffer.py) -/

/-- The system clipboard's observable content: Unicode text, non-text
content (image, files, ...), or empty. -/
inductive ClipContent where
  | text (s : String)
  | other
  | empty
deriving DecidableEq

/-- Outcome of one attempt of `_set_clipboard_text` (text_buffer.py
465-476): `OpenClipboard` raised; `EmptyClipboard` raised (clipboard
unchanged); `SetClipboardData` raised after `EmptyClipboard` succeeded
(clipboard now empty); or full success. -/
inductive SetClipAttempt where
  | openFail
  | emptyFail
  | dataFail
  | ok
deriving DecidableEq

/-- `MAX_CLIPBOARD_RETRIES` (text_buffer.py 7). -/
def MAX_CLIPBOARD_RETRIES : Nat := 5

/-- The retry loop of `TextBufferManager._get_clipboard_text` (text_buffer.py
442-458): on a successful `OpenClipboard`, return the text when
`CF_UNICODETEXT` is available, otherwise fall through to the next attempt;
reading never mutates the clipboard. -/
def getClipLoop (attempts : List Bool) (clip : ClipContent) : Option String :=
  match attempts with
  | [] => none
  | openOk :: rest =>
    if openOk then
      match clip with
      | .text s => some s
      | _ => getClipLoop rest clip
    else getClipLoop rest clip

/-- `TextBufferManager._get_clipboard_text` with its five attempts. -/
def getClipboardText (attempts : List Bool) (clip : ClipContent) :
    Option String :=
  getClipLoop (attempts.take MAX_CLIPBOARD_RETRIES) clip

/-- The retry loop of `TextBufferManager._set_clipboard_text` (text_buffer.py
460-477): each attempt may fail before any mutation (`openFail`,
`emptyFail`), fail after emptying the clipboard (`dataFail`), or succeed. -/
def setClipLoop (attempts : List SetClipAttempt) (newText : String)
    (clip : ClipContent) : Bool × ClipContent :=
  match attempts with
  | [] => (false, clip)
  | a :: rest =>
    match a with
    | .openFail => setClipLoop rest newText clip
    | .emptyFail => setClipLoop rest newText clip
    | .dataFail => setClipLoop rest newText .empty
    | .ok => (true, .text newText)

/-- `TextBufferManager._set_clipboard_text` with its five attempts. -/
def setClipboardText (attempts : List SetClipAttempt) (newText : String)
    (clip : ClipContent) : Bool × ClipContent :=
  setClipLoop (attempts.take MAX_CLIPBOARD_RETRIES) newText clip

/-- Environment for one `set_active_text` call: per-attempt outcomes of the
clipboard read used to save the original content, of the staging write, and
of the restore write, plus the results of the three non-clipboard fallback
strategies (UI automation, supplied control handle, Win32 message). -/
structure ClipWriteEnv where
  getAttempts : List Bool
  stageAttempts : List SetClipAttempt
  restoreAttempts : List SetClipAttempt
  uiaOk : Bool
  controlOk : Bool
  win32Ok : Bool
deriving DecidableEq

/-- `TextBufferManager._set_text_via_clipboard` (text_buffer.py 383-440):
save the readable clipboard text, stage the replacement, select-all and
paste (synthetic keystrokes and focus restoration do not touch the
clipboard), then restore the saved text — skipped entirely when the
original content was not readable as text, and with the restore's own
return value ignored.  A failed staging write returns `False` immediately
without any restore. -/
def setTextViaClipboard (env : ClipWriteEnv) (newText : String)
    (clip : ClipContent) : Bool × ClipContent :=
  let original := getClipboardText env.getAttempts clip
  let staged := setClipboardText env.stageAttempts newText clip
  if staged.1 = false then (false, staged.2)
  else
    match original with
    | some o => (true, (setClipboardText env.restoreAttempts o staged.2).2)
    | none => (true, staged.2)

/-- `TextBufferManager.set_active_text` (text_buffer.py 122-178): clipboard
paste first; the UI-automation, control-handle and Win32 fallbacks never
touch the clipboard. -/
def set_active_text (env : ClipWriteEnv) (newText : String)
    (clip : ClipContent) : Bool × ClipContent :=
  let viaClip := setTextViaClipboard env newText clip
  if viaClip.1 then (true, viaClip.2)
  else ((env.uiaOk || env.controlOk || env.win32Ok), viaClip.2)

/-- An environment in which every clipboard primitive succeeds. -/
def allOkClipEnv : ClipWriteEnv :=
  ⟨List.replicate 5 true, List.replicate 5 .ok, List.replicate 5 .ok,
   true, true, true⟩

/-- Claim C1, counterexample: the clipboard is not always restored.
With every primitive succeeding but a non-text original clipboard (e.g. an
image), `set_active_text` returns `true` and leaves the replacement text on
the clipboard; and with a text clipboard, a staging write whose
`SetClipboardData` raises after `EmptyClipboard` succeeded returns `false`
with the clipboard left empty — on both the success and the failure path
the content after the call differs from the content before. -/
theorem set_active_text_clipboard_not_restored :
    set_active_text allOkClipEnv "new text" .other =
      (true, .text "new text") ∧
    ClipContent.text "new text" ≠ .other ∧
    set_active_text
        ⟨List.replicate 5 true, List.replicate 5 .dataFail,
         List.replicate 5 .ok, false, false, false⟩ "new text"
        (.text "hello") =
      (false, .empty) ∧
    ClipContent.empty ≠ .text "hello" := by
  refine ⟨by decide, by decide, by decide, by decide⟩

lemma setClipLoop_clean_fail {attempts : List SetClipAttempt}
    {newText : String} {clip : ClipContent}
    (h : ∀ a ∈ attempts, a = SetClipAttempt.openFail ∨
      a = SetClipAttempt.emptyFail) :
    setClipLoop attempts newText clip = (false, clip) := by
  induction attempts with
  | nil => rfl
  | cons a rest ih =>
    have hrest := fun x hx => h x (List.mem_cons_of_mem a hx)
    rcases h a (List.mem_cons_self a rest) with ha | ha <;> subst ha <;>
      exact ih hrest

/-- Claim C1 as amended (proved): the clipboard is restored byte-for-byte
provided its original content is readable text and the clipboard primitives
succeed, and it is also untouched when the staging write fails without
partially completing; restoration is not guaranteed for non-text content,
a partially failed staging write, or a failed restore write (see the
counterexample). -/
theorem set_active_text_clipboard_restored (s0 newText : String)
    (env : ClipWriteEnv) (clip : ClipContent)
    (hstage : ∀ a ∈ env.stageAttempts,
      a = SetClipAttempt.openFail ∨ a = SetClipAttempt.emptyFail) :
    set_active_text allOkClipEnv newText (.text s0) = (true, .text s0) ∧
    (set_active_text env newText clip).2 = clip := by
  constructor
  · rfl
  · unfold set_active_text setTextViaClipboard setClipboardText
    rw [setClipLoop_clean_fail fun a ha =>
      hstage a (List.mem_of_mem_take ha)]
    rfl

/-- Witness for C1 as amended: a concrete clean-failure environment leaves
a concrete clipboard unchanged, and the all-success environment restores a
concrete text clipboard. -/
theorem set_active_text_clipboard_restored_witness :
    set_active_text allOkClipEnv "corrected" (.text "draft") =
      (true, .text "draft") ∧
    (set_active_text
        ⟨[true, true, true, true, true],
         List.replicate 5 .openFail, [], false, false, false⟩
        "corrected" (.text "draft")).2 = .text "draft" :=
  set_active_text_clipboard_restored "draft" "corrected"
    ⟨[true, true, true, true, true], List.replicate 5 .openFail, [],
     false, false, false⟩ (.text "draft") (by decide)

/-! ### `GeminiCorrector` (gemini_corrector.py) -/

/-- `GeminiCorrector.MAX_CANDIDATES` (gemini_corrector.py 13). -/
def MAX_CANDIDATES : Nat := 5

/-- The tone preset keys (gemini_corrector.py 15-64). -/
def TONE_KEYS : List String :=
  ["original", "professional", "formal", "informal", "detailed", "creative"]

/-- One candidate configuration; the temperature is modelled in integer
hundredths (the source's floats `0.30` .. `0.70` become `30` .. `70`), a
representation in which Python's `round(x, 2)` is the identity. -/
structure CandidateSetting where
  temperature : Int
  tone : String
deriving DecidableEq

/-- `GeminiCorrector.DEFAULT_CANDIDATE_SETTINGS` (gemini_corrector.py
66-72), temperatures in hundredths. -/
def DEFAULT_CANDIDATE_SETTINGS : List CandidateSetting :=
  [⟨30, "original"⟩, ⟨55, "professional"⟩, ⟨60, "formal"⟩,
   ⟨65, "informal"⟩, ⟨70, "detailed"⟩]

/-- A raw per-candidate configuration entry as supplied by callers:
`none` fields model missing keys, unparseable `float(...)` input, and
non-string tones (gemini_corrector.py 103-117). -/
structure RawSetting where
  temperature : Option Int
  tone : Option String
deriving DecidableEq

/-- `GeminiCorrector.normalize_candidate_settings` (gemini_corrector.py
91-121): always `MAX_CANDIDATES` entries; a supplied entry's temperature is
clamped to [0, 1] (here [0, 100]) and its tone lower-cased, stripped and
validated against the presets, with per-field fall-back to the defaults.
Python's `if settings and idx < len(settings)` is falsy both for `None` and
for an empty list. -/
def normalizeCandidateSettings (settings : Option (List RawSetting)) :
    List CandidateSetting :=
  (List.range MAX_CANDIDATES).map fun idx =>
    let fallback := DEFAULT_CANDIDATE_SETTINGS.getD idx ⟨70, "detailed"⟩
    match settings with
    | some l =>
      if l ≠ [] ∧ idx < l.length then
        let raw := l.getD idx ⟨none, none⟩
        let temp := max 0 (min 100 (raw.temperature.getD
          fallback.temperature))
        let toneKey :=
          match raw.tone with
          | some t =>
            let k := String.mk (pyLowerList (stripChars t.toList))
            if k ∈ TONE_KEYS then k else fallback.tone
          | none => fallback.tone
        (⟨temp, toneKey⟩ : CandidateSetting)
      else fallback
    | none => fallback

lemma normalizeCandidateSettings_length (settings : Option (List RawSetting)) :
    (normalizeCandidateSettings settings).length = 5 := by
  simp [normalizeCandidateSettings, MAX_CANDIDATES]

/-- The boilerplate prefix containing an apostrophe
(`"Here's the corrected text:"`). -/
def heresCorrectedTextColon : List Char :=
  "Here".toList ++ '\'' :: "s the corrected text:".toList

/-- The short boilerplate prefix containing an apostrophe (`"Here's:"`). -/
def heresColon : List Char := "Here".toList ++ '\'' :: "s:".toList

/-- `prefixes_to_remove` (gemini_corrector.py 313-324). -/
def boilerplateList : List (List Char) :=
  ["Here is the corrected text:".toList,
   heresCorrectedTextColon,
   "Corrected text:".toList,
   "Corrected version:".toList,
   "Corrected:".toList,
   "Output:".toList,
   "Result:".toList,
   "Fixed:".toList,
   "Here is:".toList,
   heresColon]

/-- `text.startswith(q) and text.endswith(q)` for a quote character. -/
def quoteWrap (q : Char) (t : List Char) : Bool :=
  match t with
  | [] => false
  | c :: _ => decide (c = q) && decide (t.getLast? = some q)

/-- The case-insensitive boilerplate-prefix removal loop
(gemini_corrector.py 326-330): first matching prefix is dropped and the
remainder stripped; at most one prefix is removed. -/
def stripBoilerplate : List (List Char) → List Char → List Char
  | [], t => t
  | p :: ps, t =>
    if (pyLowerList p).isPrefixOf (pyLowerList t) then
      stripChars (t.drop p.length)
    else stripBoilerplate ps t

/-- `text.startswith("```") and text.endswith("```")`. -/
def fenceWrap (t : List Char) : Bool :=
  "```".toList.isPrefixOf t && "```".toList.isSuffixOf t

/-- Python `'\n'.join(pieces)`. -/
def joinNl : List (List Char) → List Char
  | [] => []
  | [t] => t
  | t :: rest => t ++ '\n' :: joinNl rest

/-- Language-identifier removal inside a stripped code fence
(gemini_corrector.py 336-339): when the first line is purely alphabetic,
drop it and strip the rest. -/
def stripLangId (t : List Char) : List Char :=
  if '\n' ∈ t then
    match splitOnChar '\n' t with
    | [] => t
    | l0 :: rest =>
      if stripChars l0 ≠ [] ∧ (stripChars l0).all isAsciiAlpha then
        stripChars (joinNl rest)
      else t
  else t

/-- `GeminiCorrector._clean_ai_response` (gemini_corrector.py 293-344):
unquote a fully quoted response, drop one known boilerplate prefix, unwrap
a markdown code fence (with its language identifier), and strip. -/
def cleanAiResponse (text0 : List Char) : List Char :=
  if text0 = [] then []
  else
    let t1 :=
      if quoteWrap '"' text0 || quoteWrap '\'' text0 then
        (text0.drop 1).dropLast
      else text0
    let t2 := stripBoilerplate boilerplateList t1
    let t3 :=
      if fenceWrap t2 then
        stripLangId (stripChars ((t2.take (t2.length - 3)).drop 3))
      else t2
    stripChars t3

/-- `GeminiCorrector` state: whether the provider client was configured
(gemini_corrector.py 158-187). -/
structure GeminiState where
  isConfigured : Bool
deriving DecidableEq

/-- Environment for one `cleanup_paragraph` call: the provider's raw
response text per candidate index, with `none` covering a raised provider
error, a timeout, and a response without a `text` attribute. -/
structure GeminiEnv where
  rawResponse : Nat → Option String

/-- `generate_single_version` (gemini_corrector.py 237-258): clean the
stripped response text; an empty cleaned text yields `None`. -/
def generateSingleVersion (env : GeminiEnv) (i : Nat) : Option String :=
  match env.rawResponse i with
  | none => none
  | some t =>
    let corrected := cleanAiResponse (stripChars t.toList)
    if corrected = [] then none else some (String.mk corrected)

/-- `GeminiCorrector.cleanup_paragraph` (gemini_corrector.py 189-291),
returning the result list plus the number of provider requests dispatched.
`numVersions` is the already-converted `int(num_versions)`; prompt
construction (`_build_prompt`) only feeds the provider, which the
environment models, so the prompt strings themselves are not materialized.
Surviving versions are collected in candidate-index order. -/
def cleanupParagraphFull (env : GeminiEnv) (st : GeminiState) (text : String)
    (numVersions : Int) (settings : Option (List RawSetting)) :
    List String × Nat :=
  if text = "" ∨ String.mk (stripChars text.toList) = "" then ([text], 0)
  else if st.isConfigured = false then ([text], 0)
  else
    let requested := (max 1 (min numVersions (MAX_CANDIDATES : Int))).toNat
    let activeConfigs := (normalizeCandidateSettings settings).take requested
    let results := (List.range activeConfigs.length).map
      (fun i => generateSingleVersion env i)
    let versions := results.filterMap id
    if versions = [] then ([text], activeConfigs.length)
    else (versions, activeConfigs.length)

/-- The result list of `GeminiCorrector.cleanup_paragraph`. -/
def cleanup_paragraph (env : GeminiEnv) (st : GeminiState) (text : String)
    (numVersions : Int) (settings : Option (List RawSetting)) : List String :=
  (cleanupParagraphFull env st text numVersions settings).1

/-- Claim C9 (confirmed): whenever every candidate generation fails
(provider error, timeout, empty or unusable response — all of which make
`generate_single_version` return `None`), `cleanup_paragraph` returns
exactly the one-element list holding the original input, never an empty
list. -/
theorem cleanup_paragraph_all_fail (env : GeminiEnv) (st : GeminiState)
    (text : String) (n : Int) (settings : Option (List RawSetting))
    (h : ∀ i, generateSingleVersion env i = none) :
    cleanup_paragraph env st text n settings = [text] ∧
    cleanup_paragraph env st text n settings ≠ [] := by
  have hmain : cleanup_paragraph env st text n settings = [text] := by
    unfold cleanup_paragraph cleanupParagraphFull
    split
    · rfl
    · split
      · rfl
      · dsimp only
        have hres : (((List.range ((normalizeCandidateSettings
            settings).take (max 1 (min n (MAX_CANDIDATES : Int))).toNat
              |>.length)).map
            (fun i => generateSingleVersion env i)).filterMap id) = [] := by
          rw [List.filterMap_eq_nil_iff]
          intro a ha
          obtain ⟨i, _, rfl⟩ := List.mem_map.1 ha
          exact h i
        rw [hres]
        simp
  exact ⟨hmain, by

    rw [hmain]
    simp⟩

/-- Witness for C9: a provider that always errors, and one whose responses
are all blank, both return the original text unchanged. -/
theorem cleanup_paragraph_all_fail_witness :
    cleanup_paragraph ⟨fun _ => none⟩ ⟨true⟩ "Helo wrld" 3 none =
      ["Helo wrld"] ∧
    cleanup_paragraph ⟨fun _ => some "   "⟩ ⟨true⟩ "Helo wrld" 5 none =
      ["Helo wrld"] := by
  constructor
  · exact (cleanup_paragraph_all_fail ⟨fun _ => none⟩ ⟨true⟩ "Helo wrld" 3
      none (fun i => rfl)).1
  · exact (cleanup_paragraph_all_fail ⟨fun _ => some "   "⟩ ⟨true⟩
      "Helo wrld" 5 none (fun i => rfl)).1

/-- Claim C10 (confirmed): an input that is empty or whitespace-only, or an
unconfigured provider client, short-circuits `cleanup_paragraph` to the
one-element list holding the input, with zero requests dispatched to the
provider. -/
theorem cleanup_paragraph_short_circuit (env : GeminiEnv) (st : GeminiState)
    (text : String) (n : Int) (settings : Option (List RawSetting))
    (h : String.mk (stripChars text.toList) = "" ∨ st.isConfigured = false) :
    cleanupParagraphFull env st text n settings = ([text], 0) := by
  unfold cleanupParagraphFull
  rcases h with h | h
  · rw [if_pos (Or.inr h)]
  · split
    · rfl
    · simp [h]

/-- Witness for C10: a whitespace-only input and an unconfigured client,
each with a provider that would otherwise answer. -/
theorem cleanup_paragraph_short_circuit_witness :
    cleanupParagraphFull ⟨fun _ => some "Hi"⟩ ⟨true⟩ "  " 3 none =
      (["  "], 0) ∧
    cleanupParagraphFull ⟨fun _ => some "Hi"⟩ ⟨false⟩ "hello" 3 none =
      (["hello"], 0) := by
  constructor
  · exact cleanup_paragraph_short_circuit ⟨fun _ => some "Hi"⟩ ⟨true⟩
      "  " 3 none (Or.inl (by decide))
  · exact cleanup_paragraph_short_circuit ⟨fun _ => some "Hi"⟩ ⟨false⟩
      "hello" 3 none (Or.inr rfl)

example : normalize_trigger_key "Ctrl+Space" = some "ctrl+space" := by decide
example : normalize_trigger_key "control+shift+d" = some "ctrl+shift+d" := by decide
example : normalize_trigger_key "a+b" = some "b" := by decide
example : normalize_trigger_key "shift+ctrl+x" = some "ctrl+shift+x" := by decide
example : normalize_trigger_key " CMD + Return " = some "ctrl+enter" := by decide
example : normalize_trigger_key "ctrl+foo" = none := by decide
example : normalize_trigger_key "ctrl+shift" = none := by decide
example : normalize_trigger_key "" = none := by decide
example : normalize_trigger_key "f99" = some "f99" := by decide
example : normalize_trigger_key "ctrl+capslock" = some "ctrl+caps lock" := by decide

end CorreX
